import Mathlib

/-!
A shallow embedding of `uargparse.py` (a minimal argparse-style command-line
parser) together with proofs about its behaviour.

Modelling conventions:
* Python strings are Lean `String`s (in this toolchain a `String` wraps a
  `List Char`, so all string operations are re-expressed on `.data` to keep
  them kernel-reducible).
* Python's dynamically typed argument values are a closed inductive `Value`
  covering exactly the value shapes the program produces (`None`, `str`,
  `int`, `bool`, lists).
* The `type=` converter of an argument is one of the converters the program
  is used with (`str`, `int`), embedded as the inductive `ArgType`.
* Mutation of the token list (`args.pop(0)`) becomes explicit state passing:
  every consuming operation returns the remaining token list.
* `_ArgError` exceptions become an `Except`-style result with an inductive
  `ArgError` mirroring the distinct `raise` sites of the source.
* Python-level crashes that are not `_ArgError` (e.g. the `AttributeError`
  raised by `arg_vals[i].append(...)` when the value is not a list) are a
  distinct `pyCrash` outcome.
-/

namespace Uargparse

/-- Models Python `s.startswith(pre)`: `pre` is a prefix of `s`. -/
def pyStartsWith (s pre : String) : Bool :=
  pre.data.isPrefixOf s.data

/-- Models `s.lstrip("-").replace("-", "_")` (the tail of
`_dest_from_optnames`): `lstrip("-")` drops every leading `'-'`, and since the
`replace` pattern is the single character `"-"`, substring replacement
coincides with mapping `'-'` to `'_'` over the remaining characters. -/
def stripDest (s : String) : String :=
  ⟨(s.data.dropWhile (fun c => c = '-')).map (fun c => if c = '-' then '_' else c)⟩

/-- Decimal digits to a number; fails on any non-digit character. -/
def decDigits? (cs : List Char) : Option Nat :=
  cs.foldl
    (fun acc c =>
      acc.bind (fun n => if c.isDigit then some (n * 10 + (c.toNat - '0'.toNat)) else Option.none))
    (some 0)

/-- Models the Python `int` constructor on strings as used by the program: an
optional sign followed by a non-empty run of decimal digits succeeds, anything
else raises `ValueError` (here: `none`). -/
def pyInt (s : String) : Option Int :=
  match s.data with
  | [] => Option.none
  | '-' :: rest =>
    if rest = [] then Option.none else (decDigits? rest).map (fun n => -(n : Int))
  | '+' :: rest =>
    if rest = [] then Option.none else (decDigits? rest).map (fun n => (n : Int))
  | cs => (decDigits? cs).map (fun n => (n : Int))

/-- Closed model of the Python values the parser stores. -/
inductive Value where
  | none
  | str (s : String)
  | int (n : Int)
  | bool (b : Bool)
  | list (vs : List Value)

/-- Models both `type(x) is type(None)` (line 231) and `x == None`
(line 261): on the values this program builds the two Python tests agree
(`False == None` and `0 == None` are both `False`). -/
def Value.isNone : Value → Bool
  | .none => true
  | _ => false

/-- One constructor per distinct `raise _ArgError(...)` site of the source. -/
inductive ArgError where
  /-- `"value %s must be one of this '%s'"` (line 34). -/
  | invalidChoice (tok : String) (choices : List String)
  /-- `"invalid %s value: %s"` / `"value %s is not applicable ..."`
  (lines 39/41): a failed type conversion. -/
  | invalidValue (tok : String)
  /-- `"expecting value for %s"` (lines 48, 59, 76, 84). -/
  | missingValue (optname : String)
  /-- `"unknown option %s"` (line 244). -/
  | unknownOption (tok : String)
  /-- `"extra args: %s"` (line 252). -/
  | extraArgs (toks : List String)
  /-- `"option(s) '%s' is(are) required"` (line 263). -/
  | missingRequired (dests : List String)
  deriving DecidableEq, Repr

/-- The action tag of an `_Arg` after `add_argument` normalisation
(`store_true`/`store_false` are rewritten to `store_const` at registration). -/
inductive Action where
  | store
  | storeConst
  | append
  deriving DecidableEq, Repr

/-- The `type=` converters the program is used with (default `str`). -/
inductive ArgType where
  | str
  | int
  deriving DecidableEq, Repr

/-- Applying a converter to a raw token; `none` models the caught
`TypeError/ValueError/OSError`. -/
def applyType : ArgType → String → Option Value
  | .str, s => some (.str s)
  | .int, s => (pyInt s).map .int

/-- The `nargs` field: `None`, `"?"`, `"*"`, `"+"`, or an integer count
(the source runs `int(self.nargs)` on anything else). -/
inductive Nargs where
  | none
  | optional
  | star
  | plus
  | count (n : Int)
  deriving DecidableEq, Repr

/-- The `_Arg` record (display-only fields `metavar`/`help` carried along for
completeness; the parse path never reads them). -/
structure Arg where
  names : List String
  dest : String
  metavar : Option String := Option.none
  arg_type : ArgType := ArgType.str
  action : Action := Action.store
  nargs : Nargs := Nargs.none
  const : Value := Value.none
  default : Value := Value.none
  required : Bool := false
  choices : List String := []
  help : String := ""

/-- The inner `_checked` closure of `_Arg.parse`: the raw token is first
tested against `choices` (a falsy — here empty — `choices` disables the
test), then converted.  The two different conversion-failure messages of the
source are one `invalidValue` error here. -/
def checkedTok (a : Arg) (tok : String) : Except ArgError Value :=
  if a.choices ≠ [] ∧ tok ∉ a.choices then .error (.invalidChoice tok a.choices)
  else
    match applyType a.arg_type tok with
    | some v => .ok v
    | Option.none => .error (.invalidValue tok)

/-- The `while args and n != 0` collection loop of `_Arg.parse`
(lines 63–74), with the trailing `if n > 0: raise` check folded in: `n` is the
remaining count (negative = unbounded), `stopAtOpt` the `stop_at_opt` flag.
Returns the collected values and the remaining tokens. -/
def consumeVar (checked : String → Except ArgError Value) (optname : String) :
    List String → Int → Bool → Except ArgError (List Value × List String)
  | [], n, _ =>
    if n > 0 then .error (.missingValue optname) else .ok ([], [])
  | t :: rest, n, stopAtOpt =>
    if n = 0 then .ok ([], t :: rest)
    else if stopAtOpt ∧ pyStartsWith t "-" ∧ t ≠ "-" then
      if t = "--" then consumeVar checked optname rest n false
      else if n > 0 then .error (.missingValue optname) else .ok ([], t :: rest)
    else
      match checked t with
      | .error e => .error e
      | .ok v =>
        match consumeVar checked optname rest (n - 1) stopAtOpt with
        | .error e => .error e
        | .ok (vs, rest') => .ok (v :: vs, rest')

/-- `_Arg.parse(self, optname, args)` (lines 30–86).  The consumed-from-front
mutation of `args` becomes the returned remaining-token list.  The second
`elif self.action == "append"` branch of the source is unreachable (the first
branch already covers `append`) and is therefore not represented. -/
def Arg.parse (a : Arg) (optname : String) (args : List String) :
    Except ArgError (Value × List String) :=
  match a.action with
  | .store | .append =>
    match a.nargs with
    | .none =>
      match args with
      | [] => .error (.missingValue optname)
      | t :: rest =>
        match checkedTok a t with
        | .error e => .error e
        | .ok v => .ok (v, rest)
    | .optional =>
      match args with
      | [] => .ok (a.default, [])
      | t :: rest =>
        match checkedTok a t with
        | .error e => .error e
        | .ok v => .ok (v, rest)
    | .star =>
      match consumeVar (checkedTok a) optname args (-1) true with
      | .error e => .error e
      | .ok (vs, rest) => .ok (.list vs, rest)
    | .plus =>
      if args = [] then .error (.missingValue optname)
      else
        match consumeVar (checkedTok a) optname args (-1) true with
        | .error e => .error e
        | .ok (vs, rest) => .ok (.list vs, rest)
    | .count n =>
      match consumeVar (checkedTok a) optname args n true with
      | .error e => .error e
      | .ok (vs, rest) => .ok (.list vs, rest)
  | .storeConst => .ok (a.const, args)

/-- The `for name in opt_names: if name.startswith("--"): dest = name; break`
scan of `_dest_from_optnames` (lines 91–94): the first spelling starting with
`--`, else the initial candidate `d`. -/
def scanLong : List String → String → String
  | [], d => d
  | n :: rest, d => if pyStartsWith n "--" then n else scanLong rest d

/-- `_dest_from_optnames(opt_names)` (lines 89–95).  The source indexes
`opt_names[0]`, so it is only ever called with a non-empty list; `headD ""`
stands in for that precondition. -/
def dest_from_optnames (optNames : List String) : String :=
  stripDest (scanLong optNames (optNames.headD ""))

/-- Modelled from the spec: the dest-derivation rule as §4.2 words it — scan
the declared spellings and take the **last** one starting with `--`, falling
back to the first spelling — for comparison with `dest_from_optnames`. -/
def dest_from_optnames_specword (optNames : List String) : String :=
  stripDest ((optNames.filter (fun n => pyStartsWith n "--")).getLastD (optNames.headD ""))

/-- The `action=` strings accepted by `add_argument`. -/
inductive AddAction where
  | store
  | storeTrue
  | storeFalse
  | storeConst
  | append
  deriving DecidableEq

/-- The keyword arguments of `add_argument`; `Option` distinguishes an absent
keyword from an explicitly passed one where `kwargs.get` has a non-`None`
default or the absence changes behaviour. -/
structure Kwargs where
  action : AddAction := AddAction.store
  dest : Option String := Option.none
  argType : ArgType := ArgType.str
  nargs : Nargs := Nargs.none
  const : Option Value := Option.none
  default : Option Value := Option.none
  metavar : Option String := Option.none
  required : Bool := false
  choices : List String := []
  help : String := ""

/-- The `ArgumentParser` state: ordered named (`opt`) and positional (`pos`)
spec lists.  The display metadata (`prog`, `description`, `epilog`) feeds only
the usage renderer and is omitted. -/
structure ArgumentParser where
  opt : List Arg := []
  pos : List Arg := []

/-- The `store_true`/`store_false` normalisation of `add_argument`
(lines 107–118): the effective `(action, const, default)` triple. -/
def kwNormalize (kw : Kwargs) : Action × Value × Value :=
  match kw.action with
  | .storeTrue => (Action.storeConst, Value.bool true, kw.default.getD (Value.bool false))
  | .storeFalse => (Action.storeConst, Value.bool false, kw.default.getD (Value.bool true))
  | .store => (Action.store, kw.const.getD Value.none, kw.default.getD Value.none)
  | .storeConst => (Action.storeConst, kw.const.getD Value.none, kw.default.getD Value.none)
  | .append => (Action.append, kw.const.getD Value.none, kw.default.getD Value.none)

/-- The `_Arg(...)` construction at the end of `add_argument` (line 138). -/
def mkArgOf (kw : Kwargs) (names : List String) (dest : String) : Arg :=
  { names := names, dest := dest, metavar := kw.metavar, arg_type := kw.argType,
    action := (kwNormalize kw).1, nargs := kw.nargs, const := (kwNormalize kw).2.1,
    default := (kwNormalize kw).2.2, required := kw.required, choices := kw.choices,
    help := kw.help }

/-- `ArgumentParser.add_argument` (lines 106–138).  Returns `none` exactly on
the source's `IndexError` path (no positional spellings and no `dest=`). -/
def add_argument (p : ArgumentParser) (args : List String) (kw : Kwargs) :
    Option ArgumentParser :=
  match args with
  | a :: _ =>
    if pyStartsWith a "-" then
      some { p with opt := p.opt ++ [mkArgOf kw args (kw.dest.getD (dest_from_optnames args))] }
    else
      some { p with pos := p.pos ++ [mkArgOf kw args (kw.dest.getD a)] }
  | [] =>
    match kw.dest with
    | some d => some { p with pos := p.pos ++ [mkArgOf kw [d] d] }
    | Option.none => Option.none

/-- The front-token classification of the main loop (line 221):
`args[0].startswith("-") and args[0] != "-" and args[0] != "--"`. -/
def looksLikeOpt (t : String) : Bool :=
  pyStartsWith t "-" && t != "-" && t != "--"

/-- The inner `consume_unknown` closure (lines 214–216): absorb front tokens
into `unknown` until one starts with `-` (note: a bare `-` or `--` also stops
this sweep). -/
def consume_unknown : List String → List String → List String × List String
  | unknown, [] => (unknown, [])
  | unknown, t :: rest =>
    if pyStartsWith t "-" then (unknown, t :: rest)
    else consume_unknown (unknown ++ [t]) rest

/-- A Python-level failure escaping the `_ArgError` discipline. -/
inductive Fail where
  | argErr (e : ArgError)
  /-- The `AttributeError` from `arg_vals[i].append(...)` when the stored
  value is neither `None` nor a list. -/
  | pyCrash

/-- Result of the named-option scan: optional failure, the `found` flag, the
updated value column, and the remaining tokens. -/
structure MatchRes where
  fail : Option Fail
  found : Bool
  vals : List Value
  args : List String

/-- The `for i, opt in enumerate(self.opt)` scan of `_parse_args`
(lines 228–238), for the already-popped spelling `a`: an `append` match
initialises `arg_vals[i]` to `[]` when it `is None`, appends the parse result
in place and keeps scanning; any other match stores the parse result and
stops the scan. -/
def matchOpts (a : String) : List Arg → Nat → List Value → List String → Bool → MatchRes
  | [], _, vals, args, found => ⟨Option.none, found, vals, args⟩
  | opt :: rest, i, vals, args, found =>
    if a ∈ opt.names then
      if opt.action = Action.append then
        let cur := vals.getD i Value.none
        if cur.isNone then
          -- `arg_vals[i] = []` happens before `opt.parse` runs
          let vals1 := vals.set i (Value.list [])
          match Arg.parse opt a args with
          | .error e => ⟨some (.argErr e), found, vals1, args⟩
          | .ok (v, args') => matchOpts a rest (i + 1) (vals1.set i (Value.list [v])) args' true
        else
          match cur with
          | .list vs =>
            match Arg.parse opt a args with
            | .error e => ⟨some (.argErr e), found, vals, args⟩
            | .ok (v, args') =>
              matchOpts a rest (i + 1) (vals.set i (Value.list (vs ++ [v]))) args' true
          | _ =>
            -- `arg_vals[i].append` resolves the attribute before `opt.parse`
            -- is evaluated, so the AttributeError fires first
            ⟨some .pyCrash, found, vals, args⟩
      else
        match Arg.parse opt a args with
        | .error e => ⟨some (.argErr e), found, vals, args⟩
        | .ok (v, args') => ⟨Option.none, true, vals.set i v, args'⟩
    else matchOpts a rest (i + 1) vals args found

/-- The positional pass of the loop body (lines 253–255): each positional
spec consumes its arity's worth from the front, producing `dest ↦ value`
pairs in declaration order. -/
def parsePositionals : List Arg → List String → Except ArgError (List (String × Value) × List String)
  | [], args => .ok ([], args)
  | p :: ps, args =>
    match Arg.parse p (p.names.headD "") args with
    | .error e => .error e
    | .ok (v, args') =>
      match parsePositionals ps args' with
      | .error e => .error e
      | .ok (pairs, args'') => .ok ((p.dest, v) :: pairs, args'')

/-- How one run of the `while args or not parsed_pos` loop ends. -/
inductive LoopRes where
  /-- Normal loop exit (or the tolerant-mode `break` at line 250). -/
  | done (pairs : List (String × Value)) (unknown : List String)
  | failed (e : ArgError)
  | helpExit
  | pyCrash
  /-- Fuel exhaustion; unreachable from `parse_args_core`'s fuel. -/
  | outOfFuel

/-- Loop exit paired with the final value column and the final contents of
the (shared, destructively consumed) token buffer. -/
structure LoopOut where
  res : LoopRes
  vals : List Value
  args : List String

/-- The `while args or not parsed_pos` loop of `_parse_args` (lines 219–258),
written as fuel-indexed recursion; every iteration either consumes a token or
flips `parsed_pos`, so `args.length + 2` fuel always suffices.  On `failed`
exits the `args` component holds the buffer as of the start of the failing
spec consumption (the source may additionally have popped a few tokens inside
the failing `_Arg.parse` call; nothing observes the buffer after a failure,
since the process exits). -/
def parseLoop (P : ArgumentParser) (ru : Bool) :
    Nat → List String → List Value → List (String × Value) → Bool → List String → LoopOut
  | 0, args, vals, _, _, _ => ⟨.outOfFuel, vals, args⟩
  | fuel + 1, args, vals, pairs, pp, unknown =>
    match args with
    | [] =>
      if pp then ⟨.done pairs unknown, vals, []⟩
      else
        match parsePositionals P.pos [] with
        | .error e => ⟨.failed e, vals, []⟩
        | .ok (newPairs, args') =>
          if ru then
            let u := consume_unknown unknown args'
            parseLoop P ru fuel u.2 vals (pairs ++ newPairs) true u.1
          else parseLoop P ru fuel args' vals (pairs ++ newPairs) true unknown
    | a :: rest =>
      if looksLikeOpt a then
        if a = "-h" ∨ a = "--help" then ⟨.helpExit, vals, rest⟩
        else
          let r := matchOpts a P.opt 0 vals rest false
          match r.fail with
          | some (.argErr e) => ⟨.failed e, r.vals, r.args⟩
          | some .pyCrash => ⟨.pyCrash, r.vals, r.args⟩
          | Option.none =>
            if r.found then parseLoop P ru fuel r.args r.vals pairs pp unknown
            else if ru then
              let u := consume_unknown (unknown ++ [a]) r.args
              parseLoop P ru fuel u.2 r.vals pairs pp u.1
            else ⟨.failed (.unknownOption a), r.vals, r.args⟩
      else
        if pp then
          if ru then ⟨.done pairs (unknown ++ args), vals, args⟩
          else ⟨.failed (.extraArgs args), vals, args⟩
        else
          match parsePositionals P.pos args with
          | .error e => ⟨.failed e, vals, args⟩
          | .ok (newPairs, args') =>
            if ru then
              let u := consume_unknown unknown args'
              parseLoop P ru fuel u.2 vals (pairs ++ newPairs) true u.1
            else parseLoop P ru fuel args' vals (pairs ++ newPairs) true unknown

/-- `[arg.dest for i, arg in enumerate(self.opt) if arg.required == True and
arg_vals[i] == None]` (line 261). -/
def requiredOf (opts : List Arg) (vals : List Value) : List String :=
  ((opts.zip vals).filter (fun av => av.1.required && av.2.isNone)).map (fun av => av.1.dest)

/-- Outcome of `_parse_args` as observed by the caller.  `error` is the
`_ArgError` path (usage + process exit 2 in `_parse_args_impl`); `helpExit`
the `-h`/`--help` path (exit 0); `ok` carries the `namedtuple` field/value
pairs in construction order plus the `unknown` list (returned to the caller
only by `parse_known_args`). -/
inductive POut where
  | ok (record : List (String × Value)) (unknown : List String)
  | error (e : ArgError)
  | helpExit
  | pyCrash
  | outOfFuel

/-- `_parse_args(self, args, return_unknown)` (lines 204–266): defaults for
the named specs, the consumption loop, the required-options check, and the
record assembly.  Also returns the final value column and token buffer (state
an embedding must expose to talk about mutation). -/
def parse_args_core (P : ArgumentParser) (ru : Bool) (args : List String) :
    POut × List Value × List String :=
  let r := parseLoop P ru (args.length + 2) args (P.opt.map (fun o => o.default)) [] false []
  match r.res with
  | .done pairs unknown =>
    let req := requiredOf P.opt r.vals
    if req ≠ [] then (.error (.missingRequired req), r.vals, r.args)
    else (.ok (((P.opt.map (fun o => o.dest)).zip r.vals) ++ pairs) unknown, r.vals, r.args)
  | .failed e => (.error e, r.vals, r.args)
  | .helpExit => (.helpExit, r.vals, r.args)
  | .pyCrash => (.pyCrash, r.vals, r.args)
  | .outOfFuel => (.outOfFuel, r.vals, r.args)

/-- `parse_args` (strict mode; line 186). -/
def parse_args (P : ArgumentParser) (args : List String) : POut :=
  (parse_args_core P false args).1

/-- `parse_known_args` (tolerant mode; line 189). -/
def parse_known_args (P : ArgumentParser) (args : List String) : POut :=
  (parse_args_core P true args).1

/-- The registered specs as they stand after a parse run.  In the source,
`arg_vals[i]` is initialised to the very `default` object of spec `i`; for an
`append` spec whose default is not `None`, `arg_vals[i].append(...)` mutates
that shared object in place, so the spec's default afterwards equals the
final `arg_vals[i]`.  Every other field, and every other spec, is never
written during a parse. -/
def specsAfter (opts : List Arg) (finalVals : List Value) : List Arg :=
  opts.zipWith
    (fun a v =>
      if a.action = Action.append ∧ a.default.isNone = false then { a with default := v } else a)
    finalVals

/-- A parse run together with the post-run state of the named specs. -/
def parse_with_specs (P : ArgumentParser) (ru : Bool) (args : List String) :
    POut × List Arg :=
  let r := parse_args_core P ru args
  (r.1, specsAfter P.opt r.2.1)

/-- A minimal heap of Python list objects, to express the aliasing content of
`_parse_args_impl`: addresses are indices, the caller's token list lives at
one of them. -/
abbrev Store := List (List String)

/-- `_parse_args_impl` (lines 192–202) for an explicitly passed `args`:
`args = args[:]` (line 196) copies the caller's buffer into a fresh cell, and
the destructive `_parse_args` runs against that copy only. -/
def parse_args_impl_store (P : ArgumentParser) (ru : Bool) (addr : Nat) (store : Store) :
    POut × Store :=
  let callerArgs := store.getD addr []
  let fresh := store.length
  let store1 := store ++ [callerArgs]
  let r := parse_args_core P ru callerArgs
  (r.1, store1.set fresh r.2.2)

/-! ### Concrete parsers used by the scenario claims -/

/-- `--count`, `type=int`, arity none, default `0`. -/
def countSpec : Arg :=
  { names := ["--count"], dest := "count", arg_type := ArgType.int, default := Value.int 0 }

/-- Positional `name`, `type=str`. -/
def nameSpec : Arg := { names := ["name"], dest := "name" }

/-- The §8 concrete-scenario parser: `--count` plus positional `name`. -/
def countNameParser : ArgumentParser := { opt := [countSpec], pos := [nameSpec] }

/-- Parser with only the positional `name` (sweep counterexample). -/
def onlyNameParser : ArgumentParser := { pos := [nameSpec] }

/-- `--files` with `nargs="*"` (round-trip counterexample). -/
def filesSpec : Arg := { names := ["--files"], dest := "files", nargs := Nargs.star }

/-- Parser with only the zero-or-more `--files` spec. -/
def filesParser : ArgumentParser := { opt := [filesSpec] }

/-- `--x` with `action="append"` and the list default `["a"]`. -/
def appendListDefaultSpec : Arg :=
  { names := ["--x"], dest := "x", action := Action.append,
    default := Value.list [Value.str "a"] }

/-- Parser holding `appendListDefaultSpec` (mutation counterexample). -/
def appendListDefaultParser : ArgumentParser := { opt := [appendListDefaultSpec] }

/-- Boolean flag: `store_const` with `const=True`, `default=False`
(the `store_true` sugar after normalisation). -/
def flagSpec : Arg :=
  { names := ["--flag"], dest := "flag", action := Action.storeConst,
    const := Value.bool true, default := Value.bool false }

/-- Parser with `--flag` and positional `name`. -/
def flagNameParser : ArgumentParser := { opt := [flagSpec], pos := [nameSpec] }

/-- A required named option `--x` never supplied. -/
def requiredSpec : Arg := { names := ["--x"], dest := "x", required := true }

/-- Parser with only the required `--x`. -/
def requiredParser : ArgumentParser := { opt := [requiredSpec] }

/-- `--p` with `nargs="+"`. -/
def plusSpec : Arg := { names := ["--p"], dest := "p", nargs := Nargs.plus }

/-- `--s` with `nargs="*"`. -/
def starSpec : Arg := { names := ["--s"], dest := "s", nargs := Nargs.star }

/-! ### Theorems -/

/-- C4: on the parser with `--count` (int, arity none, default 0) and
positional `name` (str): `["--count", "3", "alice"]` parses to
`count = 3, name = "alice"`; `["alice"]` parses to `count = 0,
name = "alice"`; `["--count", "x", "alice"]` fails with the invalid-value
error. -/
theorem count_name_scenario :
    parse_args countNameParser ["--count", "3", "alice"] =
      POut.ok [("count", Value.int 3), ("name", Value.str "alice")] [] ∧
    parse_args countNameParser ["alice"] =
      POut.ok [("count", Value.int 0), ("name", Value.str "alice")] [] ∧
    parse_args countNameParser ["--count", "x", "alice"] =
      POut.error (ArgError.invalidValue "x") :=
  ⟨rfl, rfl, rfl⟩

/-- C9: a `store_const` spec returns its `const` unconditionally and leaves
the token sequence untouched for every invocation spelling and token list;
consequently `["--flag", "x"]` binds the flag's dest to its constant and the
positional's dest to `"x"`. -/
theorem store_const_consumes_nothing :
    (∀ (a : Arg) (optname : String) (args : List String), a.action = Action.storeConst →
      Arg.parse a optname args = Except.ok (a.const, args)) ∧
    parse_args flagNameParser ["--flag", "x"] =
      POut.ok [("flag", Value.bool true), ("name", Value.str "x")] [] := by
  refine ⟨?_, rfl⟩
  intro a optname args h
  simp [Arg.parse, h]

/-- Witness for C9's universally quantified conjunct at `flagSpec`. -/
theorem store_const_consumes_nothing_witness :
    Arg.parse flagSpec "--flag" ["x"] = Except.ok (Value.bool true, ["x"]) :=
  store_const_consumes_nothing.1 flagSpec "--flag" ["x"] rfl

/-- The `break`-on-first-match scan of `_dest_from_optnames` equals
`find?` with fallback to the initial candidate. -/
theorem scanLong_eq_find (names : List String) (d : String) :
    scanLong names d = ((names.find? (fun m => pyStartsWith m "--")).getD d) := by
  induction names with
  | nil => rfl
  | cons n rest ih =>
    by_cases h : pyStartsWith n "--"
    · simp [scanLong, List.find?_cons_of_pos, h]
    · simp [scanLong, List.find?_cons_of_neg, h, ih]

/-- C1 (counterexample): registering spellings `["--foo", "--bar"]` with no
explicit dest derives the dest `"foo"` from the FIRST long spelling, while
the claimed rule (take the LAST spelling starting with `--`, here modelled by
`dest_from_optnames_specword`) would give `"bar"`. -/
theorem dest_derivation_counterexample :
    ((add_argument {} ["--foo", "--bar"] {}).map (fun P => P.opt.map (fun o => o.dest))) =
      some ["foo"] ∧
    dest_from_optnames_specword ["--foo", "--bar"] = "bar" ∧
    ("foo" : String) ≠ "bar" := by
  refine ⟨rfl, rfl, ?_⟩
  decide

/-- C1 (amended): for every named-argument registration without an explicit
dest, `add_argument` appends a named spec whose dest is derived from the
FIRST declared spelling that starts with `--` (falling back to the first
spelling when none does), with leading dashes stripped and remaining dashes
replaced by underscores. -/
theorem dest_derivation_first_long (P : ArgumentParser) (n : String) (rest : List String)
    (kw : Kwargs) (hdest : kw.dest = Option.none) (hdash : pyStartsWith n "-" = true) :
    ∃ P', add_argument P (n :: rest) kw = some P' ∧ P'.pos = P.pos ∧
      P'.opt.map (fun o => o.dest) =
        P.opt.map (fun o => o.dest) ++
          [stripDest (((n :: rest).find? (fun m => pyStartsWith m "--")).getD n)] := by
  refine ⟨{ P with opt := P.opt ++ [mkArgOf kw (n :: rest) (kw.dest.getD (dest_from_optnames (n :: rest)))] },
    ?_, rfl, ?_⟩
  · simp only [add_argument, hdash, if_true]
  · simp [mkArgOf, hdest, dest_from_optnames, scanLong_eq_find]

/-- Witness for C1's amended theorem at concrete spellings. -/
theorem dest_derivation_first_long_witness :
    ∃ P', add_argument {} ["--foo", "--bar"] {} = some P' ∧
      P'.pos = ({} : ArgumentParser).pos ∧
      P'.opt.map (fun o => o.dest) =
        ({} : ArgumentParser).opt.map (fun o => o.dest) ++
          [stripDest ((["--foo", "--bar"].find? (fun m => pyStartsWith m "--")).getD "--foo")] :=
  dest_derivation_first_long {} "--foo" ["--bar"] {} rfl rfl

/-- C3 (counterexample): in tolerant mode, after the unrecognized `--zzz` is
recorded, the next token `-` does NOT look like a named-option spelling, yet
it is not absorbed into the unknown sequence: the sweep stops at it and the
positional later consumes it as a value, so the result binds `name = "-"`
with unknown `["--zzz", "a"]`. -/
theorem bare_sweep_counterexample :
    parse_known_args onlyNameParser ["--zzz", "-", "a"] =
      POut.ok [("name", Value.str "-")] ["--zzz", "a"] ∧
    looksLikeOpt "-" = false :=
  ⟨rfl, rfl⟩

/-- C3 (amended): the tolerant-mode sweep absorbs exactly the
immediately-following tokens that do not start with `-`: `consume_unknown`
appends the longest dash-free prefix of the remaining tokens to `unknown` and
leaves the rest (so a bare `-` or `--` also stops the sweep). -/
theorem bare_sweep_absorbs_dash_free_prefix (unknown args : List String) :
    consume_unknown unknown args =
      (unknown ++ args.takeWhile (fun t => !(pyStartsWith t "-")),
       args.dropWhile (fun t => !(pyStartsWith t "-"))) := by
  induction args generalizing unknown with
  | nil => simp [consume_unknown]
  | cons t rest ih =>
    by_cases h : pyStartsWith t "-"
    · simp [consume_unknown, h, List.takeWhile_cons, List.dropWhile_cons]
    · simp [consume_unknown, h, ih, List.takeWhile_cons, List.dropWhile_cons]

/-- The named-option scan only overwrites cells of the value column, never
changes its length. -/
theorem matchOpts_vals_length (a : String) (opts : List Arg) :
    ∀ (i : Nat) (vals : List Value) (args : List String) (found : Bool),
      (matchOpts a opts i vals args found).vals.length = vals.length := by
  induction opts with
  | nil => intro i vals args found; rfl
  | cons opt rest ih =>
    intro i vals args found
    by_cases hmem : a ∈ opt.names
    · by_cases hact : opt.action = Action.append
      · by_cases hnone : ((vals[i]?).getD Value.none).isNone = true
        · cases hp : Arg.parse opt a args with
          | error e => simp [matchOpts, hmem, hact, hnone, hp]
          | ok va => simp [matchOpts, hmem, hact, hnone, hp, ih]
        · cases hcur : (vals[i]?).getD Value.none with
          | list vs =>
            cases hp : Arg.parse opt a args with
            | error e => simp [matchOpts, hmem, hact, hnone, hcur, hp, Value.isNone]
            | ok va => simp [matchOpts, hmem, hact, hnone, hcur, hp, ih, Value.isNone]
          | none => rw [hcur] at hnone; simp [Value.isNone] at hnone
          | str s => simp [matchOpts, hmem, hact, hnone, hcur, Value.isNone]
          | int n => simp [matchOpts, hmem, hact, hnone, hcur, Value.isNone]
          | bool b => simp [matchOpts, hmem, hact, hnone, hcur, Value.isNone]
      · cases hp : Arg.parse opt a args with
        | error e => simp [matchOpts, hmem, hact, hp]
        | ok va => simp [matchOpts, hmem, hact, hp]
    · simp [matchOpts, hmem, ih]

/-- The main loop only overwrites cells of the value column, never changes
its length. -/
theorem parseLoop_vals_length (P : ArgumentParser) (ru : Bool) :
    ∀ (fuel : Nat) (args : List String) (vals : List Value) (pairs : List (String × Value))
      (pp : Bool) (unknown : List String),
      (parseLoop P ru fuel args vals pairs pp unknown).vals.length = vals.length := by
  intro fuel
  induction fuel with
  | zero => intro args vals pairs pp unknown; rfl
  | succ fuel ih =>
    intro args vals pairs pp unknown
    rcases Bool.eq_false_or_eq_true ru with hru | hru <;> subst hru <;>
    · cases args with
      | nil =>
        by_cases hpp : pp = true
        · simp [parseLoop, hpp]
        · cases hpos : parsePositionals P.pos [] with
          | error e => simp [parseLoop, hpp, hpos]
          | ok pr => simp [parseLoop, hpp, hpos, ih]
      | cons a rest =>
        by_cases hopt : looksLikeOpt a = true
        · by_cases hhelp : a = "-h" ∨ a = "--help"
          · simp [parseLoop, hopt, hhelp]
          · have hmv := matchOpts_vals_length a P.opt 0 vals rest false
            cases hfail : (matchOpts a P.opt 0 vals rest false).fail with
            | some f =>
              cases f <;> simp_all [parseLoop, hopt, hhelp, hfail]
            | none =>
              by_cases hfound : (matchOpts a P.opt 0 vals rest false).found = true
              · simp [parseLoop, hopt, hhelp, hfail, hfound, ih, hmv]
              · have hfound2 : (matchOpts a P.opt 0 vals rest false).found = false := by
                  simpa using hfound
                simp [parseLoop, hopt, hhelp, hfail, hfound2, ih, hmv]
        · by_cases hpp : pp = true
          · simp [parseLoop, hopt, hpp]
          · cases hpos : parsePositionals P.pos (a :: rest) with
            | error e => simp [parseLoop, hopt, hpp, hpos]
            | ok pr => simp [parseLoop, hopt, hpp, hpos, ih]

/-- `parse_args_core`'s value column is the loop's value column. -/
theorem parse_args_core_vals (P : ArgumentParser) (ru : Bool) (args : List String) :
    (parse_args_core P ru args).2.1 =
      (parseLoop P ru (args.length + 2) args (P.opt.map (fun o => o.default)) [] false []).vals := by
  unfold parse_args_core
  cases hres : (parseLoop P ru (args.length + 2) args (P.opt.map (fun o => o.default)) [] false []).res
  all_goals simp only [hres]
  · split <;> rfl

/-- `specsAfter` is the identity when no append spec has a non-`None`
default. -/
theorem specsAfter_self (opts : List Arg) :
    ∀ (vals : List Value), vals.length = opts.length →
      (∀ a ∈ opts, a.action = Action.append → a.default = Value.none) →
      specsAfter opts vals = opts := by
  induction opts with
  | nil => intro vals _ _; simp [specsAfter]
  | cons a rest ih =>
    intro vals hlen h
    cases vals with
    | nil => simp at hlen
    | cons v vs =>
      have hcond : ¬(a.action = Action.append ∧ a.default.isNone = false) := by
        rintro ⟨h1, h2⟩
        have hd := h a (by simp) h1
        rw [hd] at h2
        simp [Value.isNone] at h2
      have htail := ih vs (by simpa using hlen) (fun b hb => h b (by simp [hb]))
      have hstep : specsAfter (a :: rest) (v :: vs) =
          (if a.action = Action.append ∧ a.default.isNone = false then { a with default := v }
           else a) :: specsAfter rest vs := rfl
      rw [hstep, if_neg hcond, htail]

/-- C2 (counterexample): parsing `["--x", "b"]` with an `append` spec whose
default is the list `["a"]` succeeds, but afterwards the spec's `default`
object has been extended in place to `["a", "b"]` — the registered spec is
mutated by the parse. -/
theorem spec_mutation_counterexample :
    (parse_with_specs appendListDefaultParser false ["--x", "b"]).1 =
      POut.ok [("x", Value.list [Value.str "a", Value.str "b"])] [] ∧
    (parse_with_specs appendListDefaultParser false ["--x", "b"]).2.map (fun a => a.default) =
      [Value.list [Value.str "a", Value.str "b"]] ∧
    appendListDefaultParser.opt.map (fun a => a.default) = [Value.list [Value.str "a"]] ∧
    Value.list [Value.str "a", Value.str "b"] ≠ Value.list [Value.str "a"] := by
  refine ⟨rfl, rfl, rfl, ?_⟩
  intro h
  injection h with h'
  simp at h'

/-- C2 (amended): the registered specs are unchanged by any parse run
whenever every `append`-action spec has default `None`; only an `append` spec
with a non-`None` (list) default is mutated, its default being extended in
place by the appended values. -/
theorem specs_unchanged_unless_append_list_default (P : ArgumentParser) (ru : Bool)
    (args : List String)
    (h : ∀ a ∈ P.opt, a.action = Action.append → a.default = Value.none) :
    (parse_with_specs P ru args).2 = P.opt := by
  show specsAfter P.opt (parse_args_core P ru args).2.1 = P.opt
  rw [parse_args_core_vals]
  exact specsAfter_self P.opt _
    (by rw [parseLoop_vals_length]; simp) h

/-- Witness for C2's amended theorem: the `--count`/`name` parser (no append
specs) is returned unchanged. -/
theorem specs_unchanged_unless_append_list_default_witness :
    (parse_with_specs countNameParser false ["alice"]).2 = countNameParser.opt :=
  specs_unchanged_unless_append_list_default countNameParser false ["alice"]
    (by
      intro a ha hact
      simp [countNameParser] at ha
      rw [ha] at hact
      exact absurd hact (by decide))

/-- `_checked` only raises choice/conversion errors, never the
expecting-value error. -/
theorem checkedTok_no_missing (a : Arg) (t : String) (e : ArgError) (x : String)
    (h : checkedTok a t = Except.error e) : e ≠ ArgError.missingValue x := by
  unfold checkedTok at h
  split at h
  · injection h with h'
    subst h'
    exact fun hx => ArgError.noConfusion hx
  · split at h
    · exact Except.noConfusion h
    · injection h with h'
      subst h'
      exact fun hx => ArgError.noConfusion hx

/-- With an unbounded remaining count (`n < 0`, i.e. `nargs` in `*`/`+`), the
collection loop can only fail inside `_checked`, so never with the
expecting-value error. -/
theorem consumeVar_neg_no_missing (checked : String → Except ArgError Value) (optname : String)
    (hch : ∀ t e, checked t = Except.error e → ∀ x, e ≠ ArgError.missingValue x) :
    ∀ (args : List String) (n : Int), n < 0 → ∀ (s : Bool) (e : ArgError) (x : String),
      consumeVar checked optname args n s = Except.error e → e ≠ ArgError.missingValue x := by
  intro args
  induction args with
  | nil =>
    intro n hn s e x h
    unfold consumeVar at h
    rw [if_neg (by omega)] at h
    exact absurd h (by simp)
  | cons t rest ih =>
    intro n hn s e x h
    unfold consumeVar at h
    rw [if_neg (by omega)] at h
    by_cases hstop : s = true ∧ pyStartsWith t "-" = true ∧ ¬t = "-"
    · rw [if_pos hstop] at h
      by_cases hdd : t = "--"
      · rw [if_pos hdd] at h
        exact ih n hn false e x h
      · rw [if_neg hdd, if_neg (by omega)] at h
        exact absurd h (by simp)
    · rw [if_neg hstop] at h
      cases hc : checked t with
      | error e2 =>
        simp only [hc] at h
        injection h with h'
        subst h'
        exact hch t e2 hc x
      | ok v =>
        simp only [hc] at h
        cases hc2 : consumeVar checked optname rest (n - 1) s with
        | error e2 =>
          simp only [hc2] at h
          injection h with h'
          subst h'
          exact ih (n - 1) (by omega) s e2 x hc2
        | ok pr =>
          rw [hc2] at h
          exact absurd h (by cases pr; simp)

/-- C7: for a spec with action `store` or `append`, one-or-more arity fails
with the expecting-value error exactly when the remaining-token sequence is
already empty, while zero-or-more arity on an empty sequence returns the
empty list rather than failing. -/
theorem plus_empty_missing_value (a : Arg) (optname : String)
    (hact : a.action = Action.store ∨ a.action = Action.append) :
    (a.nargs = Nargs.plus →
      ∀ args : List String,
        (Arg.parse a optname args = Except.error (ArgError.missingValue optname) ↔ args = [])) ∧
    (a.nargs = Nargs.star → Arg.parse a optname [] = Except.ok (Value.list [], [])) := by
  constructor
  · intro hn args
    constructor
    · intro h
      by_contra hne
      rcases hact with hact | hact <;>
      · simp only [Arg.parse, hact, hn] at h
        rw [if_neg hne] at h
        cases hc : consumeVar (checkedTok a) optname args (-1) true with
        | error e =>
          simp only [hc] at h
          injection h with h'
          subst h'
          exact consumeVar_neg_no_missing (checkedTok a) optname
            (fun t e2 he2 x => checkedTok_no_missing a t e2 x he2)
            args (-1) (by omega) true _ optname hc rfl
        | ok pr =>
          rw [hc] at h
          exact absurd h (by cases pr; simp)
    · intro h
      subst h
      rcases hact with hact | hact <;> simp [Arg.parse, hact, hn]
  · intro hn
    rcases hact with hact | hact <;>
    · simp only [Arg.parse, hact, hn]
      norm_num [consumeVar]

/-- Witness for C7 at the concrete `+` and `*` specs on an empty token
list. -/
theorem plus_empty_missing_value_witness :
    Arg.parse plusSpec "--p" [] = Except.error (ArgError.missingValue "--p") ∧
    Arg.parse starSpec "--s" [] = Except.ok (Value.list [], []) :=
  ⟨((plus_empty_missing_value plusSpec "--p" (Or.inl rfl)).1 rfl []).mpr rfl,
   (plus_empty_missing_value starSpec "--s" (Or.inl rfl)).2 rfl⟩

/-- Once `stop_at_opt` is disabled, the collection loop with unbounded count
converts and collects every remaining token. -/
theorem consumeVar_nostop (optname : String) :
    ∀ (args : List String) (n : Int), n < 0 →
      consumeVar (fun t => Except.ok (Value.str t)) optname args n false =
        Except.ok (args.map Value.str, []) := by
  intro args
  induction args with
  | nil =>
    intro n hn
    unfold consumeVar
    rw [if_neg (by omega)]
    rfl
  | cons t rest ih =>
    intro n hn
    unfold consumeVar
    rw [if_neg (by omega), if_neg (by simp)]
    rw [ih (n - 1) (by omega)]
    rfl

/-- Full characterisation of one variable-arity extraction with unbounded
count, identity conversion and the stop rule initially enabled: tokens are
collected up to the first one that starts with `-` and is not `-`; if that
token is `--` it is discarded and all remaining tokens are collected;
otherwise extraction stops there. -/
theorem consumeVar_star_char (optname : String) :
    ∀ (args : List String) (n : Int), n < 0 →
      consumeVar (fun t => Except.ok (Value.str t)) optname args n true =
        (match args.dropWhile (fun t => !(pyStartsWith t "-" && t != "-")) with
         | [] =>
           Except.ok
             ((args.takeWhile (fun t => !(pyStartsWith t "-" && t != "-"))).map Value.str, [])
         | t :: r =>
           if t = "--" then
             Except.ok
               (((args.takeWhile (fun t => !(pyStartsWith t "-" && t != "-"))) ++ r).map
                 Value.str, [])
           else
             Except.ok
               ((args.takeWhile (fun t => !(pyStartsWith t "-" && t != "-"))).map Value.str,
                t :: r)) := by
  intro args
  induction args with
  | nil =>
    intro n hn
    unfold consumeVar
    rw [if_neg (by omega)]
    rfl
  | cons t rest ih =>
    intro n hn
    unfold consumeVar
    rw [if_neg (by omega)]
    by_cases hp : (pyStartsWith t "-" && t != "-") = true
    · have hp1 : pyStartsWith t "-" = true := by
        simpa using (Bool.and_elim_left hp)
      have hp2 : ¬t = "-" := by
        have := Bool.and_elim_right hp
        simpa [bne_iff_ne] using this
      rw [if_pos ⟨rfl, hp1, hp2⟩]
      by_cases hdd : t = "--"
      · subst hdd
        rw [if_pos rfl, consumeVar_nostop optname rest n hn]
        have hbne : (("--" : String) != "-") = true := by decide
        simp [List.dropWhile_cons, List.takeWhile_cons, hp1, hbne]
      · rw [if_neg hdd, if_neg (by omega)]
        have hbne : (t != "-") = true := by simp [bne_iff_ne, hp2]
        simp [List.dropWhile_cons, List.takeWhile_cons, hp1, hbne, hdd]
    · have hps : ¬(true = true ∧ pyStartsWith t "-" = true ∧ ¬t = "-") := by
        rintro ⟨-, h1, h2⟩
        exact hp (by simp [h1, bne_iff_ne, h2])
      rw [if_neg hps]
      have hfalse : (pyStartsWith t "-" && t != "-") = false := by
        rcases Bool.eq_false_or_eq_true (pyStartsWith t "-" && t != "-") with h | h
        · exact absurd h hp
        · exact h
      have hdcons : List.dropWhile (fun s => !(pyStartsWith s "-" && s != "-")) (t :: rest) =
          List.dropWhile (fun s => !(pyStartsWith s "-" && s != "-")) rest := by
        rw [List.dropWhile_cons]
        simp [hfalse]
      have htcons : List.takeWhile (fun s => !(pyStartsWith s "-" && s != "-")) (t :: rest) =
          t :: List.takeWhile (fun s => !(pyStartsWith s "-" && s != "-")) rest := by
        rw [List.takeWhile_cons]
        simp [hfalse]
      rw [ih (n - 1) (by omega), hdcons, htcons]
      cases hdw : rest.dropWhile (fun s => !(pyStartsWith s "-" && s != "-")) with
      | nil => simp
      | cons u r => by_cases hu : u = "--" <;> simp [hu]

/-- C6: during variable-arity extraction the loop stops early at a token that
starts with `-` and is not exactly `-` — unless that token is the first
literal `--`, which is discarded once and permanently disables the stop rule,
after which every later token (option-looking, `--`, or bare) is collected.
Stated as: (1) the early-stop step, (2) the `--` discard-and-disable step,
(3) the collect-regardless step once disabled, and (4) the end-to-end
characterisation for an unbounded extraction. -/
theorem varargs_separator_rule :
    (∀ (checked : String → Except ArgError Value) (optname t : String) (rest : List String)
       (n : Int), n ≠ 0 → pyStartsWith t "-" = true → t ≠ "-" → t ≠ "--" →
       consumeVar checked optname (t :: rest) n true =
         if n > 0 then Except.error (ArgError.missingValue optname)
         else Except.ok ([], t :: rest)) ∧
    (∀ (checked : String → Except ArgError Value) (optname : String) (rest : List String)
       (n : Int), n ≠ 0 →
       consumeVar checked optname ("--" :: rest) n true =
         consumeVar checked optname rest n false) ∧
    (∀ (checked : String → Except ArgError Value) (optname t : String) (rest : List String)
       (n : Int), n ≠ 0 →
       consumeVar checked optname (t :: rest) n false =
         (match checked t with
          | .error e => .error e
          | .ok v =>
            match consumeVar checked optname rest (n - 1) false with
            | .error e => .error e
            | .ok (vs, rest') => .ok (v :: vs, rest'))) ∧
    (∀ (optname : String) (args : List String),
       consumeVar (fun t => Except.ok (Value.str t)) optname args (-1) true =
         (match args.dropWhile (fun t => !(pyStartsWith t "-" && t != "-")) with
          | [] =>
            Except.ok
              ((args.takeWhile (fun t => !(pyStartsWith t "-" && t != "-"))).map Value.str, [])
          | t :: r =>
            if t = "--" then
              Except.ok
                (((args.takeWhile (fun t => !(pyStartsWith t "-" && t != "-"))) ++ r).map
                  Value.str, [])
            else
              Except.ok
                ((args.takeWhile (fun t => !(pyStartsWith t "-" && t != "-"))).map Value.str,
                 t :: r))) := by
  refine ⟨?_, ?_, ?_, ?_⟩
  · intro checked optname t rest n hn hdash hne hdd
    unfold consumeVar
    rw [if_neg hn, if_pos ⟨rfl, hdash, hne⟩, if_neg hdd]
  · intro checked optname rest n hn
    simp only [consumeVar]
    rw [if_neg hn]
    have hsw : pyStartsWith "--" "-" = true := by decide
    simp [hsw]
  · intro checked optname t rest n hn
    simp only [consumeVar]
    rw [if_neg hn, if_neg (by simp)]
  · intro optname args
    exact consumeVar_star_char optname args (-1) (by omega)

/-- Witness for C6: the discard-and-disable step at a concrete extraction
(`["--", "-x"]` collects `-x` after discarding `--`), plus the early stop at
`-x` when the rule is still enabled. -/
theorem varargs_separator_rule_witness :
    consumeVar (fun t => Except.ok (Value.str t)) "o" ["--", "-x"] (-1) true =
      consumeVar (fun t => Except.ok (Value.str t)) "o" ["-x"] (-1) false ∧
    consumeVar (fun t => Except.ok (Value.str t)) "o" ["-x", "y"] (-1) true =
      Except.ok ([], ["-x", "y"]) := by
  constructor
  · exact varargs_separator_rule.2.1 (fun t => Except.ok (Value.str t)) "o" ["-x"] (-1)
      (by decide)
  · have h := varargs_separator_rule.1 (fun t => Except.ok (Value.str t)) "o" "-x" ["y"] (-1)
      (by decide) (by decide) (by decide) (by decide)
    simpa using h

/-- `_checked` never raises the required-options error. -/
theorem checkedTok_not_required (a : Arg) (t : String) (e : ArgError) (ds : List String)
    (h : checkedTok a t = Except.error e) : e ≠ ArgError.missingRequired ds := by
  unfold checkedTok at h
  split at h
  · injection h with h'
    subst h'
    exact fun hx => ArgError.noConfusion hx
  · split at h
    · exact Except.noConfusion h
    · injection h with h'
      subst h'
      exact fun hx => ArgError.noConfusion hx

/-- The collection loop never raises the required-options error. -/
theorem consumeVar_not_required (checked : String → Except ArgError Value) (optname : String)
    (ds : List String)
    (hch : ∀ t e, checked t = Except.error e → e ≠ ArgError.missingRequired ds) :
    ∀ (args : List String) (n : Int) (s : Bool) (e : ArgError),
      consumeVar checked optname args n s = Except.error e →
      e ≠ ArgError.missingRequired ds := by
  intro args
  induction args with
  | nil =>
    intro n s e h
    unfold consumeVar at h
    by_cases hn : n > 0
    · rw [if_pos hn] at h
      injection h with h'
      subst h'
      exact fun hx => ArgError.noConfusion hx
    · rw [if_neg hn] at h
      exact Except.noConfusion h
  | cons t rest ih =>
    intro n s e h
    unfold consumeVar at h
    by_cases hz : n = 0
    · rw [if_pos hz] at h
      exact Except.noConfusion h
    · rw [if_neg hz] at h
      by_cases hstop : s = true ∧ pyStartsWith t "-" = true ∧ ¬t = "-"
      · rw [if_pos hstop] at h
        by_cases hdd : t = "--"
        · rw [if_pos hdd] at h
          exact ih n false e h
        · rw [if_neg hdd] at h
          by_cases hn : n > 0
          · rw [if_pos hn] at h
            injection h with h'
            subst h'
            exact fun hx => ArgError.noConfusion hx
          · rw [if_neg hn] at h
            exact Except.noConfusion h
      · rw [if_neg hstop] at h
        cases hc : checked t with
        | error e2 =>
          simp only [hc] at h
          injection h with h'
          subst h'
          exact hch t e2 hc
        | ok v =>
          simp only [hc] at h
          cases hc2 : consumeVar checked optname rest (n - 1) s with
          | error e2 =>
            simp only [hc2] at h
            injection h with h'
            subst h'
            exact ih (n - 1) s e2 hc2
          | ok pr =>
            rw [hc2] at h
            exact absurd h (by cases pr; simp)

/-- `_Arg.parse` never raises the required-options error. -/
theorem Arg.parse_not_required (a : Arg) (optname : String) (args : List String) (e : ArgError)
    (ds : List String) (h : Arg.parse a optname args = Except.error e) :
    e ≠ ArgError.missingRequired ds := by
  have hcv := consumeVar_not_required (checkedTok a) optname ds
    (fun t e2 h2 => checkedTok_not_required a t e2 ds h2)
  have hone : ∀ (args2 : List String),
      (match args2 with
        | [] => Except.error (ArgError.missingValue optname)
        | t :: rest =>
          match checkedTok a t with
          | Except.error e2 => Except.error e2
          | Except.ok v => Except.ok (v, rest)) = Except.error e →
      e ≠ ArgError.missingRequired ds := by
    intro args2 h2
    cases args2 with
    | nil =>
      injection h2 with h'
      subst h'
      exact fun hx => ArgError.noConfusion hx
    | cons t rest =>
      cases hc : checkedTok a t with
      | error e2 =>
        simp only [hc] at h2
        injection h2 with h'
        subst h'
        exact checkedTok_not_required a t e2 ds hc
      | ok v =>
        simp [hc] at h2
  have hvar : ∀ (n : Int),
      (match consumeVar (checkedTok a) optname args n true with
        | Except.error e2 => Except.error e2
        | Except.ok (vs, rest) => Except.ok (Value.list vs, rest)) = Except.error e →
      e ≠ ArgError.missingRequired ds := by
    intro n h2
    cases hc : consumeVar (checkedTok a) optname args n true with
    | error e2 =>
      simp only [hc] at h2
      injection h2 with h'
      subst h'
      exact hcv args n true e2 hc
    | ok pr =>
      rw [hc] at h2
      exact absurd h2 (by cases pr; simp)
  cases hact : a.action with
  | storeConst =>
    simp only [Arg.parse, hact] at h
    exact Except.noConfusion h
  | store =>
    cases hn : a.nargs with
    | none =>
      simp only [Arg.parse, hact, hn] at h
      exact hone args h
    | optional =>
      simp only [Arg.parse, hact, hn] at h
      cases args with
      | nil => exact Except.noConfusion h
      | cons t rest =>
        cases hc : checkedTok a t with
        | error e2 =>
          simp only [hc] at h
          injection h with h'
          subst h'
          exact checkedTok_not_required a t e2 ds hc
        | ok v =>
          simp [hc] at h
    | star =>
      simp only [Arg.parse, hact, hn] at h
      exact hvar (-1) h
    | plus =>
      simp only [Arg.parse, hact, hn] at h
      by_cases he : args = []
      · rw [if_pos he] at h
        injection h with h'
        subst h'
        exact fun hx => ArgError.noConfusion hx
      · rw [if_neg he] at h
        exact hvar (-1) h
    | count n =>
      simp only [Arg.parse, hact, hn] at h
      exact hvar n h
  | append =>
    cases hn : a.nargs with
    | none =>
      simp only [Arg.parse, hact, hn] at h
      exact hone args h
    | optional =>
      simp only [Arg.parse, hact, hn] at h
      cases args with
      | nil => exact Except.noConfusion h
      | cons t rest =>
        cases hc : checkedTok a t with
        | error e2 =>
          simp only [hc] at h
          injection h with h'
          subst h'
          exact checkedTok_not_required a t e2 ds hc
        | ok v =>
          simp [hc] at h
    | star =>
      simp only [Arg.parse, hact, hn] at h
      exact hvar (-1) h
    | plus =>
      simp only [Arg.parse, hact, hn] at h
      by_cases he : args = []
      · rw [if_pos he] at h
        injection h with h'
        subst h'
        exact fun hx => ArgError.noConfusion hx
      · rw [if_neg he] at h
        exact hvar (-1) h
    | count n =>
      simp only [Arg.parse, hact, hn] at h
      exact hvar n h

/-- The positional pass never raises the required-options error. -/
theorem parsePositionals_not_required (ds : List String) :
    ∀ (ps : List Arg) (args : List String) (e : ArgError),
      parsePositionals ps args = Except.error e → e ≠ ArgError.missingRequired ds := by
  intro ps
  induction ps with
  | nil =>
    intro args e h
    exact Except.noConfusion h
  | cons p rest ih =>
    intro args e h
    unfold parsePositionals at h
    cases hp : Arg.parse p (p.names.headD "") args with
    | error e2 =>
      simp only [hp] at h
      injection h with h'
      subst h'
      exact Arg.parse_not_required p _ args e2 ds hp
    | ok pr =>
      obtain ⟨v, args'⟩ := pr
      simp only [hp] at h
      cases hq : parsePositionals rest args' with
      | error e2 =>
        simp only [hq] at h
        injection h with h'
        subst h'
        exact ih args' e2 hq
      | ok pr2 =>
        rw [hq] at h
        exact absurd h (by cases pr2; simp)

/-- The named-option scan can only fail with an `_Arg.parse` error, never the
required-options error. -/
theorem matchOpts_not_required (a : String) (ds : List String) :
    ∀ (opts : List Arg) (i : Nat) (vals : List Value) (args : List String) (found : Bool)
      (e : ArgError),
      (matchOpts a opts i vals args found).fail = some (Fail.argErr e) →
      e ≠ ArgError.missingRequired ds := by
  intro opts
  induction opts with
  | nil =>
    intro i vals args found e h
    exact Option.noConfusion h
  | cons opt rest ih =>
    intro i vals args found e h
    by_cases hmem : a ∈ opt.names
    · by_cases hact : opt.action = Action.append
      · by_cases hnone : ((vals[i]?).getD Value.none).isNone = true
        · cases hp : Arg.parse opt a args with
          | error e2 =>
            simp [matchOpts, hmem, hact, hnone, hp] at h
            exact h ▸ Arg.parse_not_required opt a args e2 ds hp
          | ok va =>
            simp [matchOpts, hmem, hact, hnone, hp] at h
            exact ih _ _ _ _ e h
        · cases hcur : (vals[i]?).getD Value.none with
          | list vs =>
            cases hp : Arg.parse opt a args with
            | error e2 =>
              simp [matchOpts, hmem, hact, hnone, hcur, hp, Value.isNone] at h
              exact h ▸ Arg.parse_not_required opt a args e2 ds hp
            | ok va =>
              simp [matchOpts, hmem, hact, hnone, hcur, hp, Value.isNone] at h
              exact ih _ _ _ _ e h
          | none => rw [hcur] at hnone; simp [Value.isNone] at hnone
          | str s => simp [matchOpts, hmem, hact, hnone, hcur, Value.isNone] at h
          | int n => simp [matchOpts, hmem, hact, hnone, hcur, Value.isNone] at h
          | bool b => simp [matchOpts, hmem, hact, hnone, hcur, Value.isNone] at h
      · cases hp : Arg.parse opt a args with
        | error e2 =>
          simp [matchOpts, hmem, hact, hp] at h
          exact h ▸ Arg.parse_not_required opt a args e2 ds hp
        | ok va =>
          simp [matchOpts, hmem, hact, hp] at h
    · simp only [matchOpts, hmem, if_neg, if_false] at h
      exact ih _ _ _ _ e (by simpa [hmem] using h)

/-- The consumption loop never fails with the required-options error: its
failures are unknown-option, extra-args, or `_Arg.parse` errors. -/
theorem parseLoop_not_required (P : ArgumentParser) (ru : Bool) (ds : List String) :
    ∀ (fuel : Nat) (args : List String) (vals : List Value) (pairs : List (String × Value))
      (pp : Bool) (unknown : List String) (e : ArgError),
      (parseLoop P ru fuel args vals pairs pp unknown).res = LoopRes.failed e →
      e ≠ ArgError.missingRequired ds := by
  intro fuel
  induction fuel with
  | zero =>
    intro args vals pairs pp unknown e h
    exact LoopRes.noConfusion h
  | succ fuel ih =>
    intro args vals pairs pp unknown e h
    rcases Bool.eq_false_or_eq_true ru with hru | hru <;> subst hru <;>
    · cases args with
      | nil =>
        by_cases hpp : pp = true
        · simp [parseLoop, hpp] at h
        · cases hpos : parsePositionals P.pos [] with
          | error e2 =>
            simp [parseLoop, hpp, hpos] at h
            exact h ▸ parsePositionals_not_required ds P.pos [] e2 hpos
          | ok pr =>
            obtain ⟨newPairs, args'⟩ := pr
            simp only [parseLoop, hpp, hpos, if_false, Bool.false_eq_true] at h
            exact ih _ _ _ _ _ e (by simpa using h)
      | cons a rest =>
        by_cases hopt : looksLikeOpt a = true
        · by_cases hhelp : a = "-h" ∨ a = "--help"
          · simp [parseLoop, hopt, hhelp] at h
          · cases hfail : (matchOpts a P.opt 0 vals rest false).fail with
            | some f =>
              cases f with
              | argErr e2 =>
                simp [parseLoop, hopt, hhelp, hfail] at h
                exact h ▸ matchOpts_not_required a ds P.opt 0 vals rest false e2 hfail
              | pyCrash => simp [parseLoop, hopt, hhelp, hfail] at h
            | none =>
              by_cases hfound : (matchOpts a P.opt 0 vals rest false).found = true
              · simp [parseLoop, hopt, hhelp, hfail, hfound] at h
                exact ih _ _ _ _ _ e h
              · have hfound2 : (matchOpts a P.opt 0 vals rest false).found = false := by
                  simpa using hfound
                simp [parseLoop, hopt, hhelp, hfail, hfound2] at h
                all_goals
                  first
                  | exact ih _ _ _ _ _ e h
                  | exact h ▸ (fun hx => ArgError.noConfusion hx)
        · by_cases hpp : pp = true
          · simp [parseLoop, hopt, hpp] at h
            all_goals exact h ▸ (fun hx => ArgError.noConfusion hx)
          · cases hpos : parsePositionals P.pos (a :: rest) with
            | error e2 =>
              simp [parseLoop, hopt, hpp, hpos] at h
              exact h ▸ parsePositionals_not_required ds P.pos (a :: rest) e2 hpos
            | ok pr =>
              obtain ⟨newPairs, args'⟩ := pr
              simp [parseLoop, hopt, hpp, hpos] at h
              exact ih _ _ _ _ _ e h

/-- C8: a parse run fails with the required-options error if and only if the
consumption loop terminated normally and some required named spec still holds
the un-set `None`; the error then names exactly the dests of all such specs
(`requiredOf`).  Concretely, a required `--x` never supplied yields the error
naming exactly `"x"`. -/
theorem missing_required_characterisation :
    (∀ (P : ArgumentParser) (ru : Bool) (args : List String) (ds : List String),
      (parse_args_core P ru args).1 = POut.error (ArgError.missingRequired ds) ↔
        ∃ pairs unknown vals argsLeft,
          parseLoop P ru (args.length + 2) args (P.opt.map (fun o => o.default)) [] false [] =
            ⟨LoopRes.done pairs unknown, vals, argsLeft⟩ ∧
          ds = requiredOf P.opt vals ∧ ds ≠ []) ∧
    parse_args requiredParser [] = POut.error (ArgError.missingRequired ["x"]) := by
  constructor
  · intro P ru args ds
    rcases hL : parseLoop P ru (args.length + 2) args (P.opt.map (fun o => o.default)) [] false []
      with ⟨res, vals, argsLeft⟩
    cases res with
    | done pairs unknown =>
      have hcore : (parse_args_core P ru args).1 =
          if requiredOf P.opt vals ≠ [] then
            POut.error (ArgError.missingRequired (requiredOf P.opt vals))
          else POut.ok (((P.opt.map (fun o => o.dest)).zip vals) ++ pairs) unknown := by
        unfold parse_args_core
        simp only [hL]
        split <;> rfl
      rw [hcore]
      by_cases hreq : requiredOf P.opt vals ≠ []
      · rw [if_pos hreq]
        constructor
        · intro h
          injection h with h2
          injection h2 with h3
          exact ⟨pairs, unknown, vals, argsLeft, hL, h3.symm, h3 ▸ hreq⟩
        · rintro ⟨pairs2, unknown2, vals2, argsLeft2, hL2, hds, hne⟩
          rw [hL] at hL2
          injection hL2 with h1 h2 h3
          subst h2
          rw [hds]
      · rw [if_neg hreq]
        constructor
        · intro h
          exact absurd h (by simp)
        · rintro ⟨pairs2, unknown2, vals2, argsLeft2, hL2, hds, hne⟩
          rw [hL] at hL2
          injection hL2 with h1 h2 h3
          subst h2
          rw [hds] at hne
          exact absurd (by simpa using hreq) hne
    | failed e =>
      have hcore : (parse_args_core P ru args).1 = POut.error e := by
        unfold parse_args_core
        simp only [hL]
      rw [hcore]
      constructor
      · intro h
        injection h with h2
        exact absurd h2 (parseLoop_not_required P ru ds (args.length + 2) args
          (P.opt.map (fun o => o.default)) [] false [] e (by rw [hL]))
      · rintro ⟨pairs2, unknown2, vals2, argsLeft2, hL2, _, _⟩
        rw [hL] at hL2
        injection hL2 with h1 h2 h3
        exact LoopRes.noConfusion h1
    | helpExit =>
      have hcore : (parse_args_core P ru args).1 = POut.helpExit := by
        unfold parse_args_core
        simp only [hL]
      rw [hcore]
      constructor
      · intro h
        exact POut.noConfusion h
      · rintro ⟨pairs2, unknown2, vals2, argsLeft2, hL2, _, _⟩
        rw [hL] at hL2
        injection hL2 with h1 h2 h3
        exact LoopRes.noConfusion h1
    | pyCrash =>
      have hcore : (parse_args_core P ru args).1 = POut.pyCrash := by
        unfold parse_args_core
        simp only [hL]
      rw [hcore]
      constructor
      · intro h
        exact POut.noConfusion h
      · rintro ⟨pairs2, unknown2, vals2, argsLeft2, hL2, _, _⟩
        rw [hL] at hL2
        injection hL2 with h1 h2 h3
        exact LoopRes.noConfusion h1
    | outOfFuel =>
      have hcore : (parse_args_core P ru args).1 = POut.outOfFuel := by
        unfold parse_args_core
        simp only [hL]
      rw [hcore]
      constructor
      · intro h
        exact POut.noConfusion h
      · rintro ⟨pairs2, unknown2, vals2, argsLeft2, hL2, _, _⟩
        rw [hL] at hL2
        injection hL2 with h1 h2 h3
        exact LoopRes.noConfusion h1
  · rfl

/-- C10: whether the run succeeds or fails, a parse call never touches the
caller's token-list object: `_parse_args_impl` copies it into a fresh cell
(`args = args[:]`, line 196) and all destructive consumption happens on the
copy, so the caller's cell holds the same list afterwards. -/
theorem caller_args_untouched (P : ArgumentParser) (ru : Bool) (addr : Nat) (store : Store)
    (h : addr < store.length) :
    ((parse_args_impl_store P ru addr store).2)[addr]? = store[addr]? := by
  unfold parse_args_impl_store
  rw [List.getElem?_set_ne (by omega : store.length ≠ addr),
    List.getElem?_append_left h]

/-- Witness for C10 at a concrete one-cell store. -/
theorem caller_args_untouched_witness :
    ((parse_args_impl_store countNameParser false 0 [["alice"]]).2)[0]? =
      [["alice"]][0]? :=
  caller_args_untouched countNameParser false 0 [["alice"]] (by decide)

/-- C5 (counterexample): for the parser with only `--files` (`nargs="*"`),
strict parsing of `T = ["--files", "a"]` succeeds, the token `U = "c"`
matches no declared spelling and there are no positional specs at all, yet
`parse_known_args (T ++ [U])` swallows `"c"` into the `--files` value list
instead of returning the strict record with leftover `["c"]`. -/
theorem roundtrip_counterexample :
    parse_args filesParser ["--files", "a"] =
      POut.ok [("files", Value.list [Value.str "a"])] [] ∧
    "c" ∉ filesSpec.names ∧ filesParser.opt = [filesSpec] ∧ filesParser.pos = [] ∧
    parse_known_args filesParser ["--files", "a", "c"] =
      POut.ok [("files", Value.list [Value.str "a", Value.str "c"])] [] ∧
    parse_known_args filesParser ["--files", "a", "c"] ≠
      POut.ok [("files", Value.list [Value.str "a"])] ["c"] := by
  refine ⟨rfl, by decide, rfl, rfl, rfl, ?_⟩
  intro h
  rw [show parse_known_args filesParser ["--files", "a", "c"] =
      POut.ok [("files", Value.list [Value.str "a", Value.str "c"])] [] from rfl] at h
  injection h with h1 h2
  exact List.noConfusion h2

/-- The collection loop only ever pops tokens: its remaining list is drawn
from the input. -/
theorem consumeVar_rest_subset (checked : String → Except ArgError Value) (optname : String) :
    ∀ (args : List String) (n : Int) (s : Bool) (vs : List Value) (rest : List String),
      consumeVar checked optname args n s = Except.ok (vs, rest) → ∀ x ∈ rest, x ∈ args := by
  intro args
  induction args with
  | nil =>
    intro n s vs rest h x hx
    unfold consumeVar at h
    split at h
    · exact Except.noConfusion h
    · injection h with h'
      injection h' with h1 h2
      subst h2
      simp at hx
  | cons t rest0 ih =>
    intro n s vs rest h x hx
    unfold consumeVar at h
    split at h
    · injection h with h'
      injection h' with h1 h2
      subst h2
      exact hx
    · split at h
      · split at h
        · exact List.mem_cons_of_mem t (ih n false vs rest h x hx)
        · split at h
          · exact Except.noConfusion h
          · injection h with h'
            injection h' with h1 h2
            subst h2
            exact hx
      · split at h
        · exact Except.noConfusion h
        · split at h
          · exact Except.noConfusion h
          · rename_i v vs0 rest1 heq
            injection h with h'
            injection h' with h1 h2
            subst h2
            exact List.mem_cons_of_mem t (ih (n - 1) s vs0 rest1 heq x hx)

/-- `_Arg.parse` only ever pops tokens. -/
theorem Arg.parse_rest_subset (a : Arg) (optname : String) :
    ∀ (args : List String) (v : Value) (rest : List String),
      Arg.parse a optname args = Except.ok (v, rest) → ∀ x ∈ rest, x ∈ args := by
  intro args v rest h x hx
  have hvar : ∀ (n : Int),
      (match consumeVar (checkedTok a) optname args n true with
        | Except.error e => Except.error e
        | Except.ok (vs, r) => Except.ok (Value.list vs, r)) = Except.ok (v, rest) →
      x ∈ args := by
    intro n h2
    cases hc : consumeVar (checkedTok a) optname args n true with
    | error e => rw [hc] at h2; exact Except.noConfusion h2
    | ok pr =>
      obtain ⟨vs, r⟩ := pr
      simp only [hc] at h2
      injection h2 with h'
      injection h' with h1 hr
      subst hr
      exact consumeVar_rest_subset (checkedTok a) optname args n true vs r hc x hx
  have hone :
      (match args with
        | [] => Except.error (ArgError.missingValue optname)
        | t :: r =>
          match checkedTok a t with
          | Except.error e => Except.error e
          | Except.ok w => Except.ok (w, r)) = Except.ok (v, rest) →
      x ∈ args := by
    intro h2
    cases args with
    | nil => exact Except.noConfusion h2
    | cons t r =>
      cases hc : checkedTok a t with
      | error e => simp [hc] at h2
      | ok w =>
        simp only [hc] at h2
        injection h2 with h'
        injection h' with h1 hr
        subst hr
        exact List.mem_cons_of_mem t hx
  cases hact : a.action with
  | storeConst =>
    simp only [Arg.parse, hact] at h
    injection h with h'
    injection h' with h1 hr
    subst hr
    exact hx
  | store =>
    cases hn : a.nargs with
    | none => simp only [Arg.parse, hact, hn] at h; exact hone h
    | optional =>
      simp only [Arg.parse, hact, hn] at h
      cases args with
      | nil =>
        injection h with h'
        injection h' with h1 hr
        subst hr
        simp at hx
      | cons t r =>
        cases hc : checkedTok a t with
        | error e => simp [hc] at h
        | ok w =>
          simp only [hc] at h
          injection h with h'
          injection h' with h1 hr
          subst hr
          exact List.mem_cons_of_mem t hx
    | star => simp only [Arg.parse, hact, hn] at h; exact hvar (-1) h
    | plus =>
      simp only [Arg.parse, hact, hn] at h
      by_cases he : args = []
      · rw [if_pos he] at h; exact Except.noConfusion h
      · rw [if_neg he] at h; exact hvar (-1) h
    | count n => simp only [Arg.parse, hact, hn] at h; exact hvar n h
  | append =>
    cases hn : a.nargs with
    | none => simp only [Arg.parse, hact, hn] at h; exact hone h
    | optional =>
      simp only [Arg.parse, hact, hn] at h
      cases args with
      | nil =>
        injection h with h'
        injection h' with h1 hr
        subst hr
        simp at hx
      | cons t r =>
        cases hc : checkedTok a t with
        | error e => simp [hc] at h
        | ok w =>
          simp only [hc] at h
          injection h with h'
          injection h' with h1 hr
          subst hr
          exact List.mem_cons_of_mem t hx
    | star => simp only [Arg.parse, hact, hn] at h; exact hvar (-1) h
    | plus =>
      simp only [Arg.parse, hact, hn] at h
      by_cases he : args = []
      · rw [if_pos he] at h; exact Except.noConfusion h
      · rw [if_neg he] at h; exact hvar (-1) h
    | count n => simp only [Arg.parse, hact, hn] at h; exact hvar n h

/-- The named-option scan only ever pops tokens. -/
theorem matchOpts_args_subset (a : String) :
    ∀ (opts : List Arg) (i : Nat) (vals : List Value) (args : List String) (found : Bool),
      ∀ x ∈ (matchOpts a opts i vals args found).args, x ∈ args := by
  intro opts
  induction opts with
  | nil => intro i vals args found x hx; exact hx
  | cons opt rest ih =>
    intro i vals args found x hx
    by_cases hmem : a ∈ opt.names
    · by_cases hact : opt.action = Action.append
      · by_cases hnone : ((vals[i]?).getD Value.none).isNone = true
        · cases hp : Arg.parse opt a args with
          | error e => simp [matchOpts, hmem, hact, hnone, hp] at hx; simp [hx]
          | ok va =>
            obtain ⟨v, args'⟩ := va
            simp [matchOpts, hmem, hact, hnone, hp] at hx
            exact Arg.parse_rest_subset opt a args v args' hp x (ih _ _ _ _ x hx)
        · cases hcur : (vals[i]?).getD Value.none with
          | list vs =>
            cases hp : Arg.parse opt a args with
            | error e =>
              simp [matchOpts, hmem, hact, hnone, hcur, hp, Value.isNone] at hx
              simp [hx]
            | ok va =>
              obtain ⟨v, args'⟩ := va
              simp [matchOpts, hmem, hact, hnone, hcur, hp, Value.isNone] at hx
              exact Arg.parse_rest_subset opt a args v args' hp x (ih _ _ _ _ x hx)
          | none => rw [hcur] at hnone; simp [Value.isNone] at hnone
          | str s =>
            simp [matchOpts, hmem, hact, hnone, hcur, Value.isNone] at hx
            simp [hx]
          | int n =>
            simp [matchOpts, hmem, hact, hnone, hcur, Value.isNone] at hx
            simp [hx]
          | bool b =>
            simp [matchOpts, hmem, hact, hnone, hcur, Value.isNone] at hx
            simp [hx]
      · cases hp : Arg.parse opt a args with
        | error e => simp [matchOpts, hmem, hact, hp] at hx; simp [hx]
        | ok va =>
          obtain ⟨v, args'⟩ := va
          simp [matchOpts, hmem, hact, hp] at hx
          exact Arg.parse_rest_subset opt a args v args' hp x hx
    · simp only [matchOpts, hmem, if_neg, if_false] at hx
      exact ih _ _ _ _ x (by simpa [hmem] using hx)

/-- The positional pass only ever pops tokens. -/
theorem parsePositionals_rest_subset :
    ∀ (ps : List Arg) (args : List String) (pairs : List (String × Value))
      (args' : List String),
      parsePositionals ps args = Except.ok (pairs, args') → ∀ x ∈ args', x ∈ args := by
  intro ps
  induction ps with
  | nil =>
    intro args pairs args' h x hx
    injection h with h'
    injection h' with h1 h2
    subst h2
    exact hx
  | cons p rest ih =>
    intro args pairs args' h x hx
    unfold parsePositionals at h
    cases hp : Arg.parse p (p.names.headD "") args with
    | error e => rw [hp] at h; exact Except.noConfusion h
    | ok pr =>
      obtain ⟨v, args1⟩ := pr
      simp only [hp] at h
      cases hq : parsePositionals rest args1 with
      | error e => rw [hq] at h; exact Except.noConfusion h
      | ok pr2 =>
        obtain ⟨pairs2, args2⟩ := pr2
        simp only [hq] at h
        injection h with h'
        injection h' with h1 h2
        subst h2
        exact Arg.parse_rest_subset p _ args v args1 hp x (ih args1 pairs2 args2 hq x hx)

/-- When a spelling matches no spec at all, the scan changes nothing. -/
theorem matchOpts_unmatched (a : String) :
    ∀ (opts : List Arg) (i : Nat) (vals : List Value) (args : List String) (found : Bool),
      (∀ o ∈ opts, a ∉ o.names) →
      matchOpts a opts i vals args found = ⟨Option.none, found, vals, args⟩ := by
  intro opts
  induction opts with
  | nil => intro i vals args found _; rfl
  | cons opt rest ih =>
    intro i vals args found hmem
    have h1 : a ∉ opt.names := hmem opt (by simp)
    simp only [matchOpts, h1, if_neg, if_false]
    exact ih _ _ _ _ (fun o ho => hmem o (by simp [ho]))

/-- A strict loop from a bare-fronted stream with the positional phase
already entered cannot end in `done`: so if it does end in `done`, the front
token starts with `-`. -/
theorem strict_done_head_dash (P : ArgumentParser) :
    ∀ (fuel : Nat) (b : String) (bs : List String) (vals : List Value)
      (pairs : List (String × Value)) (unknown : List String)
      (pairs' : List (String × Value)) (unk' : List String) (vals' : List Value)
      (argsL : List String),
      parseLoop P false fuel (b :: bs) vals pairs true unknown =
        ⟨LoopRes.done pairs' unk', vals', argsL⟩ →
      pyStartsWith b "-" = true := by
  intro fuel b bs vals pairs unknown pairs' unk' vals' argsL h
  cases fuel with
  | zero =>
    injection h with h1 h2 h3
    exact LoopRes.noConfusion h1
  | succ fuel =>
    by_cases hopt : looksLikeOpt b = true
    · have := hopt
      unfold looksLikeOpt at this
      exact Bool.and_elim_left (Bool.and_elim_left this)
    · exfalso
      simp [parseLoop, hopt] at h

/-- Appending one option-looking token `U` (not `-`, not `--`) to the
remaining stream does not change a successful collection pass that starts
with the stop rule enabled on a `--`-free stream: the loop either never
reaches `U` or stops right at it. -/
theorem consumeVar_append_u (checked : String → Except ArgError Value) (optname U : String)
    (hU1 : pyStartsWith U "-" = true) (hU2 : U ≠ "-") (hU3 : U ≠ "--") :
    ∀ (args : List String) (n : Int) (vs : List Value) (rest : List String),
      "--" ∉ args →
      consumeVar checked optname args n true = Except.ok (vs, rest) →
      consumeVar checked optname (args ++ [U]) n true = Except.ok (vs, rest ++ [U]) := by
  intro args
  induction args with
  | nil =>
    intro n vs rest hdd h
    unfold consumeVar at h
    by_cases hn : n > 0
    · rw [if_pos hn] at h
      exact Except.noConfusion h
    · rw [if_neg hn] at h
      injection h with h'
      injection h' with h1 h2
      subst h1
      subst h2
      show consumeVar checked optname [U] n true = Except.ok ([], [U])
      unfold consumeVar
      by_cases hz : n = 0
      · rw [if_pos hz]
      · rw [if_neg hz, if_pos ⟨rfl, hU1, hU2⟩, if_neg hU3, if_neg hn]
  | cons t rest0 ih =>
    intro n vs rest hdd h
    have hdd0 : "--" ∉ rest0 := fun hc => hdd (by simp [hc])
    have hddt : t ≠ "--" := fun hc => hdd (by simp [hc])
    unfold consumeVar at h
    show consumeVar checked optname (t :: (rest0 ++ [U])) n true = Except.ok (vs, rest ++ [U])
    unfold consumeVar
    by_cases hz : n = 0
    · rw [if_pos hz] at h
      injection h with h'
      injection h' with h1 h2
      subst h1
      subst h2
      rw [if_pos hz]
      rfl
    · rw [if_neg hz] at h
      rw [if_neg hz]
      by_cases hstop : True ∧ pyStartsWith t "-" = true ∧ ¬t = "-"
      · have hstop' : (true = true ∧ pyStartsWith t "-" = true ∧ ¬t = "-") :=
          ⟨rfl, hstop.2.1, hstop.2.2⟩
        rw [if_pos hstop'] at h
        rw [if_pos hstop']
        rw [if_neg hddt] at h
        rw [if_neg hddt]
        by_cases hn : n > 0
        · rw [if_pos hn] at h
          exact Except.noConfusion h
        · rw [if_neg hn] at h
          rw [if_neg hn]
          injection h with h'
          injection h' with h1 h2
          subst h1
          subst h2
          rfl
      · have hstop' : ¬(true = true ∧ pyStartsWith t "-" = true ∧ ¬t = "-") := by
          intro hc
          exact hstop ⟨trivial, hc.2.1, hc.2.2⟩
        rw [if_neg hstop'] at h
        rw [if_neg hstop']
        cases hc : checked t with
        | error e => rw [hc] at h; exact Except.noConfusion h
        | ok v =>
          simp only [hc] at h ⊢
          cases hc2 : consumeVar checked optname rest0 (n - 1) true with
          | error e => rw [hc2] at h; exact Except.noConfusion h
          | ok pr =>
            obtain ⟨vs0, rest1⟩ := pr
            simp only [hc2] at h
            injection h with h'
            injection h' with h1 h2
            subst h1
            subst h2
            rw [ih (n - 1) vs0 rest1 hdd0 hc2]

/-- Appending `U` to the stream does not change a successful `_Arg.parse`
for a spec whose arity is not `"?"`. -/
theorem Arg.parse_append_u (a : Arg) (optname U : String)
    (hU1 : pyStartsWith U "-" = true) (hU2 : U ≠ "-") (hU3 : U ≠ "--")
    (hnargs : a.nargs ≠ Nargs.optional) :
    ∀ (args : List String) (v : Value) (rest : List String),
      "--" ∉ args →
      Arg.parse a optname args = Except.ok (v, rest) →
      Arg.parse a optname (args ++ [U]) = Except.ok (v, rest ++ [U]) := by
  intro args v rest hdd h
  have hvar : ∀ (n : Int),
      (match consumeVar (checkedTok a) optname args n true with
        | Except.error e => Except.error e
        | Except.ok (vs, r) => Except.ok (Value.list vs, r)) = Except.ok (v, rest) →
      (match consumeVar (checkedTok a) optname (args ++ [U]) n true with
        | Except.error e => Except.error e
        | Except.ok (vs, r) => Except.ok (Value.list vs, r)) = Except.ok (v, rest ++ [U]) := by
    intro n h2
    cases hc : consumeVar (checkedTok a) optname args n true with
    | error e => rw [hc] at h2; exact Except.noConfusion h2
    | ok pr =>
      obtain ⟨vs, r⟩ := pr
      simp only [hc] at h2
      injection h2 with h'
      injection h' with h1 h2'
      subst h1
      subst h2'
      rw [consumeVar_append_u (checkedTok a) optname U hU1 hU2 hU3 args n vs r hdd hc]
  have hone :
      (match args with
        | [] => Except.error (ArgError.missingValue optname)
        | t :: r =>
          match checkedTok a t with
          | Except.error e => Except.error e
          | Except.ok w => Except.ok (w, r)) = Except.ok (v, rest) →
      (match args ++ [U] with
        | [] => Except.error (ArgError.missingValue optname)
        | t :: r =>
          match checkedTok a t with
          | Except.error e => Except.error e
          | Except.ok w => Except.ok (w, r)) = Except.ok (v, rest ++ [U]) := by
    intro h2
    cases args with
    | nil => exact Except.noConfusion h2
    | cons t r =>
      cases hc : checkedTok a t with
      | error e => simp [hc] at h2
      | ok w =>
        simp only [hc] at h2 ⊢
        injection h2 with h'
        injection h' with h1 h2'
        subst h1
        subst h2'
        simp only [List.cons_append]
        simp [hc]
  cases hact : a.action with
  | storeConst =>
    simp only [Arg.parse, hact] at h ⊢
    injection h with h'
    injection h' with h1 h2
    subst h1
    subst h2
    rfl
  | store =>
    cases hn : a.nargs with
    | none =>
      simp only [Arg.parse, hact, hn] at h ⊢
      exact hone h
    | optional => exact absurd hn hnargs
    | star =>
      simp only [Arg.parse, hact, hn] at h ⊢
      exact hvar (-1) h
    | plus =>
      simp only [Arg.parse, hact, hn] at h ⊢
      by_cases he : args = []
      · rw [if_pos he] at h; exact Except.noConfusion h
      · rw [if_neg he] at h
        rw [if_neg (by simp [he] : ¬args ++ [U] = [])]
        exact hvar (-1) h
    | count n =>
      simp only [Arg.parse, hact, hn] at h ⊢
      exact hvar n h
  | append =>
    cases hn : a.nargs with
    | none =>
      simp only [Arg.parse, hact, hn] at h ⊢
      exact hone h
    | optional => exact absurd hn hnargs
    | star =>
      simp only [Arg.parse, hact, hn] at h ⊢
      exact hvar (-1) h
    | plus =>
      simp only [Arg.parse, hact, hn] at h ⊢
      by_cases he : args = []
      · rw [if_pos he] at h; exact Except.noConfusion h
      · rw [if_neg he] at h
        rw [if_neg (by simp [he] : ¬args ++ [U] = [])]
        exact hvar (-1) h
    | count n =>
      simp only [Arg.parse, hact, hn] at h ⊢
      exact hvar n h

/-- Appending `U` (option-looking, unmatched by value extraction) to the
stream does not change a crash-free, failure-free named-option scan. -/
theorem matchOpts_append_u (a U : String)
    (hU1 : pyStartsWith U "-" = true) (hU2 : U ≠ "-") (hU3 : U ≠ "--") :
    ∀ (opts : List Arg) (i : Nat) (vals : List Value) (args : List String) (found fd : Bool)
      (vals' : List Value) (args' : List String),
      (∀ o ∈ opts, o.nargs ≠ Nargs.optional) → "--" ∉ args →
      matchOpts a opts i vals args found = ⟨Option.none, fd, vals', args'⟩ →
      matchOpts a opts i vals (args ++ [U]) found = ⟨Option.none, fd, vals', args' ++ [U]⟩ := by
  intro opts
  induction opts with
  | nil =>
    intro i vals args found fd vals' args' _ _ h
    simp only [matchOpts] at h ⊢
    injection h with h1 h2 h3 h4
    subst h2
    subst h3
    subst h4
    rfl
  | cons opt rest ih =>
    intro i vals args found fd vals' args' hno hdd h
    have hnoo : opt.nargs ≠ Nargs.optional := hno opt (by simp)
    have hnor : ∀ o ∈ rest, o.nargs ≠ Nargs.optional := fun o ho => hno o (by simp [ho])
    by_cases hmem : a ∈ opt.names
    · by_cases hact : opt.action = Action.append
      · by_cases hnone : ((vals[i]?).getD Value.none).isNone = true
        · cases hp : Arg.parse opt a args with
          | error e =>
            have hstep : matchOpts a (opt :: rest) i vals args found =
                ⟨some (Fail.argErr e), found, vals.set i (Value.list []), args⟩ := by
              simp [matchOpts, hmem, hact, hnone, hp]
            rw [hstep] at h
            simp at h
          | ok va =>
            obtain ⟨v, args1⟩ := va
            have hddr : "--" ∉ args1 := fun hc =>
              hdd (Arg.parse_rest_subset opt a args v args1 hp "--" hc)
            have hp2 := Arg.parse_append_u opt a U hU1 hU2 hU3 hnoo args v args1 hdd hp
            have hstep : matchOpts a (opt :: rest) i vals args found =
                matchOpts a rest (i + 1) ((vals.set i (Value.list [])).set i (Value.list [v]))
                  args1 true := by
              simp [matchOpts, hmem, hact, hnone, hp]
            have hstep2 : matchOpts a (opt :: rest) i vals (args ++ [U]) found =
                matchOpts a rest (i + 1) ((vals.set i (Value.list [])).set i (Value.list [v]))
                  (args1 ++ [U]) true := by
              simp [matchOpts, hmem, hact, hnone, hp2]
            rw [hstep] at h
            rw [hstep2]
            exact ih _ _ _ _ _ _ _ hnor hddr h
        · cases hcur : (vals[i]?).getD Value.none with
          | list vs =>
            cases hp : Arg.parse opt a args with
            | error e =>
              have hstep : matchOpts a (opt :: rest) i vals args found =
                  ⟨some (Fail.argErr e), found, vals, args⟩ := by
                simp [matchOpts, hmem, hact, hnone, hcur, hp, Value.isNone]
              rw [hstep] at h
              simp at h
            | ok va =>
              obtain ⟨v, args1⟩ := va
              have hddr : "--" ∉ args1 := fun hc =>
                hdd (Arg.parse_rest_subset opt a args v args1 hp "--" hc)
              have hp2 := Arg.parse_append_u opt a U hU1 hU2 hU3 hnoo args v args1 hdd hp
              have hstep : matchOpts a (opt :: rest) i vals args found =
                  matchOpts a rest (i + 1) (vals.set i (Value.list (vs ++ [v]))) args1 true := by
                simp [matchOpts, hmem, hact, hnone, hcur, hp, Value.isNone]
              have hstep2 : matchOpts a (opt :: rest) i vals (args ++ [U]) found =
                  matchOpts a rest (i + 1) (vals.set i (Value.list (vs ++ [v])))
                    (args1 ++ [U]) true := by
                simp [matchOpts, hmem, hact, hnone, hcur, hp2, Value.isNone]
              rw [hstep] at h
              rw [hstep2]
              exact ih _ _ _ _ _ _ _ hnor hddr h
          | none => rw [hcur] at hnone; simp [Value.isNone] at hnone
          | str s =>
            have hstep : matchOpts a (opt :: rest) i vals args found =
                ⟨some Fail.pyCrash, found, vals, args⟩ := by
              simp [matchOpts, hmem, hact, hnone, hcur, Value.isNone]
            rw [hstep] at h
            simp at h
          | int n =>
            have hstep : matchOpts a (opt :: rest) i vals args found =
                ⟨some Fail.pyCrash, found, vals, args⟩ := by
              simp [matchOpts, hmem, hact, hnone, hcur, Value.isNone]
            rw [hstep] at h
            simp at h
          | bool b =>
            have hstep : matchOpts a (opt :: rest) i vals args found =
                ⟨some Fail.pyCrash, found, vals, args⟩ := by
              simp [matchOpts, hmem, hact, hnone, hcur, Value.isNone]
            rw [hstep] at h
            simp at h
      · cases hp : Arg.parse opt a args with
        | error e =>
          have hstep : matchOpts a (opt :: rest) i vals args found =
              ⟨some (Fail.argErr e), found, vals, args⟩ := by
            simp [matchOpts, hmem, hact, hp]
          rw [hstep] at h
          simp at h
        | ok va =>
          obtain ⟨v, args1⟩ := va
          have hp2 := Arg.parse_append_u opt a U hU1 hU2 hU3 hnoo args v args1 hdd hp
          have hstep : matchOpts a (opt :: rest) i vals args found =
              ⟨Option.none, true, vals.set i v, args1⟩ := by
            simp [matchOpts, hmem, hact, hp]
          have hstep2 : matchOpts a (opt :: rest) i vals (args ++ [U]) found =
              ⟨Option.none, true, vals.set i v, args1 ++ [U]⟩ := by
            simp [matchOpts, hmem, hact, hp2]
          rw [hstep] at h
          rw [hstep2]
          injection h with h1 h2 h3 h4
          subst h2
          subst h3
          subst h4
          rfl
    · have hstep : matchOpts a (opt :: rest) i vals args found =
          matchOpts a rest (i + 1) vals args found := by
        simp [matchOpts, hmem]
      have hstep2 : matchOpts a (opt :: rest) i vals (args ++ [U]) found =
          matchOpts a rest (i + 1) vals (args ++ [U]) found := by
        simp [matchOpts, hmem]
      rw [hstep] at h
      rw [hstep2]
      exact ih _ _ _ _ _ _ _ hnor hdd h

/-- Appending `U` to the stream does not change a successful positional
pass over specs with non-`"?"` arity. -/
theorem parsePositionals_append_u (U : String)
    (hU1 : pyStartsWith U "-" = true) (hU2 : U ≠ "-") (hU3 : U ≠ "--") :
    ∀ (ps : List Arg) (args : List String) (pairs : List (String × Value))
      (args' : List String),
      (∀ o ∈ ps, o.nargs ≠ Nargs.optional) → "--" ∉ args →
      parsePositionals ps args = Except.ok (pairs, args') →
      parsePositionals ps (args ++ [U]) = Except.ok (pairs, args' ++ [U]) := by
  intro ps
  induction ps with
  | nil =>
    intro args pairs args' _ _ h
    injection h with h'
    injection h' with h1 h2
    subst h1
    subst h2
    rfl
  | cons p rest ih =>
    intro args pairs args' hno hdd h
    have hnop : p.nargs ≠ Nargs.optional := hno p (by simp)
    have hnor : ∀ o ∈ rest, o.nargs ≠ Nargs.optional := fun o ho => hno o (by simp [ho])
    unfold parsePositionals at h ⊢
    cases hp : Arg.parse p (p.names.headD "") args with
    | error e => rw [hp] at h; exact Except.noConfusion h
    | ok pr =>
      obtain ⟨v, args1⟩ := pr
      have hddr : "--" ∉ args1 := fun hc =>
        hdd (Arg.parse_rest_subset p _ args v args1 hp "--" hc)
      have hp2 := Arg.parse_append_u p (p.names.headD "") U hU1 hU2 hU3 hnop args v args1 hdd hp
      simp only [hp] at h
      simp only [hp2]
      cases hq : parsePositionals rest args1 with
      | error e => rw [hq] at h; exact Except.noConfusion h
      | ok pr2 =>
        obtain ⟨pairs2, args2⟩ := pr2
        simp only [hq] at h
        injection h with h'
        injection h' with h1 h2
        subst h1
        subst h2
        simp only [ih args1 pairs2 args2 hnor hddr hq]

/-- Main simulation for the tolerant round-trip: if the strict loop finishes
normally on a `--`-free stream, then the tolerant loop on the same stream
with one trailing option-looking, help-free, unmatched `U` (specs all of
non-`"?"` arity) finishes with the same state and exactly `U` swept into
`unknown`. -/
theorem parseLoop_sim (P : ArgumentParser) (U : String)
    (hU1 : looksLikeOpt U = true)
    (hUh : ¬(U = "-h" ∨ U = "--help"))
    (hUm : ∀ o ∈ P.opt, U ∉ o.names)
    (hno : ∀ o ∈ P.opt, o.nargs ≠ Nargs.optional)
    (hnp : ∀ o ∈ P.pos, o.nargs ≠ Nargs.optional)
    (hUa : pyStartsWith U "-" = true) (hUb : U ≠ "-") (hUc : U ≠ "--") :
    ∀ (fuel : Nat) (args : List String) (vals : List Value) (pairs : List (String × Value))
      (pp : Bool) (unknown : List String) (pairs' : List (String × Value)) (unk' : List String)
      (vals' : List Value) (argsL : List String),
      "--" ∉ args →
      parseLoop P false fuel args vals pairs pp unknown =
        ⟨LoopRes.done pairs' unk', vals', argsL⟩ →
      ∀ (g : Nat), fuel + 1 ≤ g →
        parseLoop P true g (args ++ [U]) vals pairs pp unknown =
          ⟨LoopRes.done pairs' (unk' ++ [U]), vals', []⟩ := by
  intro fuel
  induction fuel with
  | zero =>
    intro args vals pairs pp unknown pairs' unk' vals' argsL hdd h g hg
    injection h with h1
    exact absurd h1 (by simp)
  | succ fuel ih =>
    intro args vals pairs pp unknown pairs' unk' vals' argsL hdd h g hg
    obtain ⟨g1, rfl⟩ : ∃ g1, g = g1 + 1 := ⟨g - 1, by omega⟩
    have hg1 : fuel + 1 ≤ g1 := by omega
    cases args with
    | nil =>
      by_cases hpp : pp = true
      · subst hpp
        injection h with h1 h2 h3
        injection h1 with h1a h1b
        subst h1a
        subst h1b
        subst h2
        subst h3
        have hmo := matchOpts_unmatched U P.opt 0 vals [] false hUm
        have hstep : parseLoop P true (g1 + 1) [U] vals pairs true unknown =
            parseLoop P true g1 [] vals pairs true (unknown ++ [U]) := by
          simp [parseLoop, hU1, hUh, hmo, consume_unknown]
        rw [List.nil_append, hstep]
        obtain ⟨g2, rfl⟩ : ∃ g2, g1 = g2 + 1 := ⟨g1 - 1, by omega⟩
        simp [parseLoop]
      · have hppf : pp = false := by simpa using hpp
        subst hppf
        cases hpos : parsePositionals P.pos [] with
        | error e =>
          rw [show parseLoop P false (fuel + 1) [] vals pairs false unknown =
              ⟨LoopRes.failed e, vals, []⟩ from by simp [parseLoop, hpos]] at h
          injection h with h1
          exact absurd h1 (by simp)
        | ok pr =>
          obtain ⟨newPairs, args1⟩ := pr
          have hargs1 : args1 = [] := by
            cases hx : args1 with
            | nil => rfl
            | cons x xs =>
              have := parsePositionals_rest_subset P.pos [] newPairs args1 hpos x
                (by simp [hx])
              simp at this
          subst hargs1
          rw [show parseLoop P false (fuel + 1) [] vals pairs false unknown =
              parseLoop P false fuel [] vals (pairs ++ newPairs) true unknown from by
            simp [parseLoop, hpos]] at h
          cases fuel with
          | zero =>
            injection h with h1
            exact absurd h1 (by simp)
          | succ fuel2 =>
            rw [show parseLoop P false (fuel2 + 1) [] vals (pairs ++ newPairs) true unknown =
                ⟨LoopRes.done (pairs ++ newPairs) unknown, vals, []⟩ from by
              simp [parseLoop]] at h
            injection h with h1 h2 h3
            injection h1 with h1a h1b
            subst h1a
            subst h1b
            subst h2
            subst h3
            have hmo := matchOpts_unmatched U P.opt 0 vals [] false hUm
            rw [List.nil_append]
            rw [show parseLoop P true (g1 + 1) [U] vals pairs false unknown =
                parseLoop P true g1 [] vals pairs false (unknown ++ [U]) from by
              simp [parseLoop, hU1, hUh, hmo, consume_unknown]]
            obtain ⟨g2, rfl⟩ : ∃ g2, g1 = g2 + 1 := ⟨g1 - 1, by omega⟩
            rw [show parseLoop P true (g2 + 1) [] vals pairs false (unknown ++ [U]) =
                parseLoop P true g2 [] vals (pairs ++ newPairs) true (unknown ++ [U]) from by
              simp [parseLoop, hpos, consume_unknown]]
            obtain ⟨g3, rfl⟩ : ∃ g3, g2 = g3 + 1 := ⟨g2 - 1, by omega⟩
            simp [parseLoop]
    | cons a rest =>
      have hdd0 : "--" ∉ rest := fun hc => hdd (List.mem_cons_of_mem a hc)
      by_cases hopt : looksLikeOpt a = true
      · by_cases hhelp : a = "-h" ∨ a = "--help"
        · rw [show parseLoop P false (fuel + 1) (a :: rest) vals pairs pp unknown =
              ⟨LoopRes.helpExit, vals, rest⟩ from by simp [parseLoop, hopt, hhelp]] at h
          injection h with h1
          exact absurd h1 (by simp)
        · rcases hmo : matchOpts a P.opt 0 vals rest false with ⟨fl, fd, mvals, margs⟩
          cases fl with
          | some f =>
            cases f with
            | argErr e =>
              rw [show parseLoop P false (fuel + 1) (a :: rest) vals pairs pp unknown =
                  ⟨LoopRes.failed e, mvals, margs⟩ from by
                simp [parseLoop, hopt, hhelp, hmo]] at h
              injection h with h1
              exact absurd h1 (by simp)
            | pyCrash =>
              rw [show parseLoop P false (fuel + 1) (a :: rest) vals pairs pp unknown =
                  ⟨LoopRes.pyCrash, mvals, margs⟩ from by
                simp [parseLoop, hopt, hhelp, hmo]] at h
              injection h with h1
              exact absurd h1 (by simp)
          | none =>
            cases fd with
            | true =>
              rw [show parseLoop P false (fuel + 1) (a :: rest) vals pairs pp unknown =
                  parseLoop P false fuel margs mvals pairs pp unknown from by
                simp [parseLoop, hopt, hhelp, hmo]] at h
              have hddm : "--" ∉ margs := by
                intro hc
                have hsub := matchOpts_args_subset a P.opt 0 vals rest false "--"
                rw [hmo] at hsub
                exact hdd0 (hsub hc)
              have hmo2 := matchOpts_append_u a U hUa hUb hUc P.opt 0 vals rest false true
                mvals margs hno hdd0 hmo
              rw [show (a :: rest) ++ [U] = a :: (rest ++ [U]) from rfl]
              rw [show parseLoop P true (g1 + 1) (a :: (rest ++ [U])) vals pairs pp unknown =
                  parseLoop P true g1 (margs ++ [U]) mvals pairs pp unknown from by
                simp [parseLoop, hopt, hhelp, hmo2]]
              exact ih margs mvals pairs pp unknown pairs' unk' vals' argsL hddm h g1 hg1
            | false =>
              rw [show parseLoop P false (fuel + 1) (a :: rest) vals pairs pp unknown =
                  ⟨LoopRes.failed (ArgError.unknownOption a), mvals, margs⟩ from by
                simp [parseLoop, hopt, hhelp, hmo]] at h
              injection h with h1
              exact absurd h1 (by simp)
      · by_cases hpp : pp = true
        · subst hpp
          rw [show parseLoop P false (fuel + 1) (a :: rest) vals pairs true unknown =
              ⟨LoopRes.failed (ArgError.extraArgs (a :: rest)), vals, a :: rest⟩ from by
            simp [parseLoop, hopt]] at h
          injection h with h1
          exact absurd h1 (by simp)
        · have hppf : pp = false := by simpa using hpp
          subst hppf
          cases hpos : parsePositionals P.pos (a :: rest) with
          | error e =>
            rw [show parseLoop P false (fuel + 1) (a :: rest) vals pairs false unknown =
                ⟨LoopRes.failed e, vals, a :: rest⟩ from by
              simp [parseLoop, hopt, hpos]] at h
            injection h with h1
            exact absurd h1 (by simp)
          | ok pr =>
            obtain ⟨newPairs, args1⟩ := pr
            rw [show parseLoop P false (fuel + 1) (a :: rest) vals pairs false unknown =
                parseLoop P false fuel args1 vals (pairs ++ newPairs) true unknown from by
              simp [parseLoop, hopt, hpos]] at h
            have hdd1 : "--" ∉ args1 := fun hc =>
              hdd (parsePositionals_rest_subset P.pos (a :: rest) newPairs args1 hpos "--" hc)
            have hpos2 := parsePositionals_append_u U hUa hUb hUc P.pos (a :: rest) newPairs
              args1 hnp hdd hpos
            simp only [List.cons_append] at hpos2
            have hcu : consume_unknown unknown (args1 ++ [U]) = (unknown, args1 ++ [U]) := by
              cases hargs1 : args1 with
              | nil => simp [consume_unknown, hUa]
              | cons b bs =>
                rw [hargs1] at h
                have hb := strict_done_head_dash P fuel b bs vals (pairs ++ newPairs) unknown
                  pairs' unk' vals' argsL h
                simp [consume_unknown, hb]
            rw [show (a :: rest) ++ [U] = a :: (rest ++ [U]) from rfl]
            rw [show parseLoop P true (g1 + 1) (a :: (rest ++ [U])) vals pairs false unknown =
                parseLoop P true g1 (args1 ++ [U]) vals (pairs ++ newPairs) true unknown from by
              simp [parseLoop, hopt, hpos2, hcu]]
            exact ih args1 vals (pairs ++ newPairs) true unknown pairs' unk' vals' argsL hdd1
              h g1 hg1

/-- C5 (amended): for every parser whose specs all have non-`"?"` arity,
every `--`-free token list `T` accepted by strict `parse_args` with record
`R`, and every single trailing token `U` that looks like a named-option
spelling, is not a help spelling and matches no declared spelling,
`parse_known_args (T ++ [U])` returns the same record `R` with `[U]` as the
only leftover.  (The restrictions on `U` and on `"?"`/`--` are forced: a bare
`U` can be swallowed by a trailing `"*"`- or `"?"`-arity spec, and after a
literal `--` even an option-looking `U` is collected as a value.) -/
theorem tolerant_roundtrip (P : ArgumentParser) (T : List String) (U : String)
    (R : List (String × Value))
    (hU1 : looksLikeOpt U = true)
    (hUh : ¬(U = "-h" ∨ U = "--help"))
    (hUm : ∀ o ∈ P.opt, U ∉ o.names)
    (hno : ∀ o ∈ P.opt, o.nargs ≠ Nargs.optional)
    (hnp : ∀ o ∈ P.pos, o.nargs ≠ Nargs.optional)
    (hT : "--" ∉ T)
    (h : parse_args P T = POut.ok R []) :
    parse_known_args P (T ++ [U]) = POut.ok R [U] := by
  have hU1' := hU1
  simp only [looksLikeOpt, Bool.and_eq_true, bne_iff_ne] at hU1'
  obtain ⟨⟨hUa, hUb⟩, hUc⟩ := hU1'
  rcases hL : parseLoop P false (T.length + 2) T (P.opt.map (fun o => o.default)) [] false []
    with ⟨res, vals, argsL⟩
  cases res with
  | done pairs unknown0 =>
    have hcore : parse_args P T =
        (if requiredOf P.opt vals ≠ [] then
          POut.error (ArgError.missingRequired (requiredOf P.opt vals))
        else POut.ok (((P.opt.map (fun o => o.dest)).zip vals) ++ pairs) unknown0) := by
      unfold parse_args parse_args_core
      simp only [hL]
      split <;> rfl
    rw [hcore] at h
    by_cases hreq : requiredOf P.opt vals ≠ []
    · rw [if_pos hreq] at h
      exact absurd h (by simp)
    · rw [if_neg hreq] at h
      injection h with h1 h2
      subst h2
      have hsim := parseLoop_sim P U hU1 hUh hUm hno hnp hUa hUb hUc (T.length + 2) T
        (P.opt.map (fun o => o.default)) [] false [] pairs [] vals argsL hT hL
        (T.length + 3) (by omega)
      have hlen : (T ++ [U]).length + 2 = T.length + 3 := by simp
      have hreq0 : requiredOf P.opt vals = [] := by simpa using hreq
      have hcore2 : parse_known_args P (T ++ [U]) =
          POut.ok (((P.opt.map (fun o => o.dest)).zip vals) ++ pairs) [U] := by
        unfold parse_known_args parse_args_core
        rw [hlen, hsim]
        simp [hreq0]
      rw [hcore2, h1]
  | failed e =>
    have hcore : parse_args P T = POut.error e := by
      unfold parse_args parse_args_core
      simp only [hL]
    rw [hcore] at h
    exact absurd h (by simp)
  | helpExit =>
    have hcore : parse_args P T = POut.helpExit := by
      unfold parse_args parse_args_core
      simp only [hL]
    rw [hcore] at h
    exact absurd h (by simp)
  | pyCrash =>
    have hcore : parse_args P T = POut.pyCrash := by
      unfold parse_args parse_args_core
      simp only [hL]
    rw [hcore] at h
    exact absurd h (by simp)
  | outOfFuel =>
    have hcore : parse_args P T = POut.outOfFuel := by
      unfold parse_args parse_args_core
      simp only [hL]
    rw [hcore] at h
    exact absurd h (by simp)

/-- Witness for C5's amended theorem: appending the unmatched option-looking
`--bogus` to an accepted strict input leaves the record unchanged and
returns `["--bogus"]` as the leftover. -/
theorem tolerant_roundtrip_witness :
    parse_known_args countNameParser (["--count", "3", "alice"] ++ ["--bogus"]) =
      POut.ok [("count", Value.int 3), ("name", Value.str "alice")] ["--bogus"] :=
  tolerant_roundtrip countNameParser ["--count", "3", "alice"] "--bogus"
    [("count", Value.int 3), ("name", Value.str "alice")]
    (by decide) (by decide) (by decide) (by decide) (by decide) (by decide) rfl

end Uargparse
